import Mathlib

/-!
A shallow embedding of the package wtks/sse: the streamer and its wire format.

The development follows the four source files of the package:

* `utils.go`     : the connection identifier `ID`,
* `option.go`    : `Options`,
* `processor.go` : `Streamer`, `Client`, `payload`, the registry operations and the fan-out,
* `handler.go`   : the response headers and the dispatch loop.

Go strings are modelled as lists of characters, Go maps as association lists whose
order stands for one iteration order, pointers to `Client` as addresses into a store
of allocated clients, and a call is given an `Outcome`: it returns, it panics, or it
does not return.  The operations are executed sequentially: the mutex is always free
when a call starts and is released when it returns, so it carries no state here.  One
section at the end of the definitions runs a fan-out call and `Stop` side by side, in
atomic actions, for the one claim that is about their overlap.
-/

set_option autoImplicit false

namespace SSE

/-! ## Strings and the part of package `strings` that `makePayload` calls -/

/-- A Go string, as the list of its characters.  The only separator the program
searches for is the line feed, a one-byte character that occurs inside no multi-byte
UTF-8 sequence, so splitting the characters agrees with splitting the bytes. -/
abbrev Str := List Char

/-- The string literal "\n" of the source. -/
def LF : Str := ['\n']

/-- Go's `strings.Index(s, sep)`: the position of the first occurrence of `sep` in `s`.
The result `-1` of the library is `none`. -/
def Index : Str → Str → Option Nat
  | [], sep => if sep = [] then some 0 else none
  | c :: t, sep =>
    if sep.isPrefixOf (c :: t) then some 0 else (Index t sep).map (· + 1)

/-- The loop of Go's `strings.Count` for a non-empty separator: count an occurrence,
continue behind it.  The first argument bounds the number of iterations. -/
def Count.loop (sep : Str) : Nat → Str → Nat
  | 0, _ => 0
  | fuel + 1, s =>
    match Index s sep with
    | none => 0
    | some i => Count.loop sep fuel (s.drop (i + sep.length)) + 1

/-- Go's `strings.Count(s, sep)`: the number of non-overlapping occurrences of `sep`
in `s`; for the empty separator, one more than the number of characters.  Every
iteration of the loop consumes at least one character, so `s.length + 1` iterations
are never exhausted (`Count_loop_fuel`). -/
def Count (s sep : Str) : Nat :=
  if sep = [] then s.length + 1 else Count.loop sep (s.length + 1) s

/-- The loop of Go's `strings.explode`: one character per piece for the first pieces,
the rest of the string in the last one. -/
def explode.loop : Nat → Str → List Str
  | 0, s => [s]
  | _ + 1, [] => [[]]
  | k + 1, c :: t => [c] :: explode.loop k t

/-- Go's `strings.explode(s, n)`: `s` cut into its characters, at most `n` pieces. -/
def explode (s : Str) (n : Int) : List Str :=
  let l : Int := s.length
  let n := if n < 0 ∨ n > l then l else n
  if n > 0 then explode.loop (n - 1).toNat s else []

/-- The loop of Go's `strings.genSplit`, run for at most the given number of
iterations: cut at the first separator, keep `sepSave` characters of it, continue
behind it; what is left is the last piece. -/
def genSplit.loop (sep : Str) (sepSave : Nat) : Nat → Str → List Str
  | 0, s => [s]
  | k + 1, s =>
    match Index s sep with
    | none => [s]
    | some m => s.take (m + sepSave) :: genSplit.loop sep sepSave k (s.drop (m + sep.length))

/-- Go's `strings.genSplit(s, sep, sepSave, n)`.  The library caps `n` at the length
of `s` in bytes plus one; the length in characters is used here, which is never
smaller than the number of separators, so for `n < 0` the cap is not reached in
either reading. -/
def genSplit (s sep : Str) (sepSave : Nat) (n : Int) : List Str :=
  if n = 0 then []
  else if sep = [] then explode s n
  else
    let n : Int := if n < 0 then (Count s sep : Int) + 1 else n
    let n : Int := if n > (s.length : Int) + 1 then (s.length : Int) + 1 else n
    genSplit.loop sep sepSave (n - 1).toNat s

/-- Go's `strings.SplitN(s, sep, n)`. -/
def SplitN (s sep : Str) (n : Int) : List Str :=
  genSplit s sep 0 n

/-- Go's `strings.Join(elems, sep)`, used to state what `SplitN` returns. -/
def Join : List Str → Str → Str
  | [], _ => []
  | [a], _ => a
  | a :: b :: rest, sep => a ++ sep ++ Join (b :: rest) sep

/-! ## `utils.go`, `option.go` -/

/-- The type `ID [16]byte`, read as one number; the program only compares identifiers. -/
abbrev ID := Nat

/-- An incoming request, as far as the authenticator may look at it. -/
abbrev Request := Str

/-- Go's `error` values that occur in the package. -/
inductive GoError where
  | ErrStreamerStopped
  | other (msg : Str)
  deriving DecidableEq, Repr

/-- The type `UserAuthenticator func(r *http.Request) (userKey string, err error)`. -/
abbrev UserAuthenticator := Request → Str × Option GoError

/-- The struct `Options`.  The `uint` of `SendChanBufferSize` is a natural number; the
only operation on it is its use as a channel capacity in `NewClient`. -/
structure Options where
  NoXAccelBuffering : Bool
  SendChanBufferSize : Nat
  UserAuthenticator : Option UserAuthenticator

/-- The function `NewDefaultOptions`. -/
def NewDefaultOptions : Options :=
  { NoXAccelBuffering := true, SendChanBufferSize := 100, UserAuthenticator := none }

/-! ## `processor.go`: data -/

/-- The struct `payload`. -/
structure payload where
  event : Str
  data : List Str
  deriving DecidableEq, Repr

/-- A buffered channel `chan *payload`: the queued values, oldest first, the capacity
given to `make`, and whether `close` has been called. -/
structure Chan where
  buf : List payload
  cap : Nat
  closed : Bool
  deriving DecidableEq, Repr

/-- The struct `Client`.  Its channel is created with it and never replaced, so the
state of the channel is kept in the client object. -/
structure Client where
  userKey : Str
  connectionID : ID
  send : Chan
  deriving DecidableEq, Repr

/-- A `*Client` that is not nil: the address of an allocated client. -/
abbrev Ptr := Nat

/-- A Go map, as the list of its entries.  The order of the list is the order in which
a `range` loop visits the entries; Go leaves that order open, and a statement proved
for every list covers every order. -/
abbrev GoMap (K V : Type) := List (K × V)

namespace GoMap

variable {K V : Type} [DecidableEq K]

/-- The lookup `m[k]`, with `none` for an absent key. -/
def get : GoMap K V → K → Option V
  | [], _ => none
  | (k', v) :: m, k => if k' = k then some v else get m k

/-- The assignment `m[k] = v`. -/
def set : GoMap K V → K → V → GoMap K V
  | [], k, v => [(k, v)]
  | (k', v') :: m, k, v => if k' = k then (k, v) :: m else (k', v') :: set m k v

/-- The builtin `delete(m, k)`. -/
def delete : GoMap K V → K → GoMap K V
  | [], _ => []
  | (k', v') :: m, k => if k' = k then delete m k else (k', v') :: delete m k

end GoMap

/-- The struct `Streamer`, without its mutex, together with the store of the clients
allocated so far (`heap`): a `Ptr` is a position in it. -/
structure Streamer where
  userMap : GoMap Str (GoMap ID Ptr)
  clientMap : GoMap ID Ptr
  options : Options
  stopped : Bool
  wg : Nat
  heap : List Client

/-- What a run-time panic of the program is about. -/
inductive Panic where
  | nilDereference
  | sendOnClosedChannel
  | closeOfClosedChannel
  | makechanSizeOutOfRange
  deriving DecidableEq, Repr

/-- The largest capacity `n` for which `make(chan *payload, n)` does not panic with
"makechan: size out of range", on a 64-bit platform: the runtime refuses a channel
whose buffer of `n` pointers of 8 bytes exceeds `maxAlloc` (2^48 bytes) less the 96
bytes of the channel header.  A `uint` that does not fit an `int` is above this bound
as well.  The exhaustion of memory below the bound is outside the model. -/
def maxChanCap : Nat := (2 ^ 48 - 96) / 8

/-- How a call ends: it returns a value, it panics, it waits for ever (a send on a
full channel with nobody receiving, a wait on a counter nobody lowers), or it loops
for ever. -/
inductive Outcome (α : Type) where
  | ret (a : α)
  | panic (p : Panic)
  | blocked
  | spins
  deriving DecidableEq, Repr

/-! ## `processor.go`: operations -/

/-- The dereference `*c` of a client pointer.  An address that names no allocated
client behaves as nil does; no state built by the program holds one. -/
abbrev deref (heap : List Client) (c : Ptr) : Option Client :=
  heap[c]?

/-- The function `NewStreamer`. -/
def NewStreamer (options : Options) : Streamer :=
  { userMap := [], clientMap := [], options := options, stopped := true, wg := 0, heap := [] }

/-- The method `Start`. -/
def Start (s : Streamer) : Streamer :=
  { s with stopped := false }

/-- The statement `close(c.send)` for the client at address `c`. -/
def closeSend (heap : List Client) (c : Ptr) : Outcome (List Client) :=
  match deref heap c with
  | none => .panic .nilDereference
  | some cl =>
    if cl.send.closed then .panic .closeOfClosedChannel
    else .ret (heap.set c { cl with send := { cl.send with closed := true } })

/-- The statement `close(c.send)` for each client of a list, in order. -/
def closeEach : List Client → List Ptr → Outcome (List Client)
  | heap, [] => .ret heap
  | heap, c :: cs =>
    match closeSend heap c with
    | .ret heap' => closeEach heap' cs
    | .panic e => .panic e
    | .blocked => .blocked
    | .spins => .spins

/-- The clients visited by `for _, v := range userMap { for _, c := range v { .. } }`,
in the order of the visit. -/
def rangeClients (userMap : GoMap Str (GoMap ID Ptr)) : List Ptr :=
  userMap.foldl (fun acc v => v.2.foldl (fun acc c => acc ++ [c.2]) acc) []

/-- The method `Stop`: set the flag, wait for the counter, close the channel of every
client of `userMap`, replace `userMap` by a new empty map. -/
def Stop (s : Streamer) : Outcome Streamer :=
  let s := { s with stopped := true }
  if s.wg ≠ 0 then .blocked
  else
    match closeEach s.heap (rangeClients s.userMap) with
    | .ret heap => .ret { s with heap := heap, userMap := [] }
    | .panic e => .panic e
    | .blocked => .blocked
    | .spins => .spins

/-- The function `makePayload`. -/
def makePayload (event data : Str) : payload :=
  { event := event, data := SplitN data LF (-1) }

/-- The statement `c.send <- payload` for one element `c` of `targets`, which may be
nil: a panic on a nil pointer and on a closed channel, the value queued when the
buffer has room, and otherwise a wait for a receiver. -/
def chanSend (heap : List Client) (c : Option Ptr) (p : payload) : Outcome (List Client) :=
  match c with
  | none => .panic .nilDereference
  | some a =>
    match deref heap a with
    | none => .panic .nilDereference
    | some cl =>
      if cl.send.closed then .panic .sendOnClosedChannel
      else if cl.send.buf.length < cl.send.cap then
        .ret (heap.set a { cl with send := { cl.send with buf := cl.send.buf ++ [p] } })
      else .blocked

/-- The loop `for _, c := range targets { c.send <- payload }`, as far as its end is
concerned: the store when it returns, or the way it does not return.  The sends made
before a panic or a wait are given by `sendProgress`. -/
def sendEach : List Client → List (Option Ptr) → payload → Outcome (List Client)
  | heap, [], _ => .ret heap
  | heap, c :: cs, p =>
    match chanSend heap c p with
    | .ret heap' => sendEach heap' cs p
    | .panic e => .panic e
    | .blocked => .blocked
    | .spins => .spins

/-- The store at the moment the loop `for _, c := range targets { c.send <- payload }`
stops: behind its last target when it returns, and before the first target it cannot
serve when it panics or waits, with the sends to the earlier targets made. -/
def sendProgress : List Client → List (Option Ptr) → payload → List Client
  | heap, [], _ => heap
  | heap, c :: cs, p =>
    match chanSend heap c p with
    | .ret heap' => sendProgress heap' cs p
    | .panic _ => heap
    | .blocked => heap
    | .spins => heap

/-- The method `send`: raise the counter, send to every target, lower the counter. -/
def send (s : Streamer) (targets : List (Option Ptr)) (p : payload) : Outcome Streamer :=
  let s := { s with wg := s.wg + 1 }
  match sendEach s.heap targets p with
  | .ret heap => .ret { s with heap := heap, wg := s.wg - 1 }
  | .panic e => .panic e
  | .blocked => .blocked
  | .spins => .spins

/-- The end of the three fan-out methods: `s.send(targets, ..); return nil`. -/
def sendAndReturn (s : Streamer) (targets : List (Option Ptr)) (p : payload) :
    Outcome (Streamer × Option GoError) :=
  match send s targets p with
  | .ret s' => .ret (s', none)
  | .panic e => .panic e
  | .blocked => .blocked
  | .spins => .spins

/-- The targets collected by `Broadcast`. -/
def broadcastTargets (s : Streamer) : List (Option Ptr) :=
  s.userMap.foldl (fun targets v => v.2.foldl (fun targets c => targets ++ [some c.2]) targets) []

/-- The method `Broadcast`. -/
def Broadcast (s : Streamer) (event data : Str) : Outcome (Streamer × Option GoError) :=
  if s.stopped then .ret (s, some .ErrStreamerStopped)
  else sendAndReturn s (broadcastTargets s) (makePayload event data)

/-- One iteration of the loop over `users` in `Multicast`, on the pair of `targets`
and `done`. -/
def multicastStep (s : Streamer) (acc : List (Option Ptr) × GoMap Str Bool) (v : Str) :
    List (Option Ptr) × GoMap Str Bool :=
  if (acc.2.get v).getD false then acc
  else
    let targets :=
      match s.userMap.get v with
      | none => acc.1
      | some arr => arr.foldl (fun targets c => targets ++ [some c.2]) acc.1
    (targets, acc.2.set v true)

/-- The targets collected by `Multicast`. -/
def multicastTargets (s : Streamer) (users : List Str) : List (Option Ptr) :=
  (users.foldl (multicastStep s) ([], [])).1

/-- The method `Multicast`. -/
def Multicast (s : Streamer) (event data : Str) (users : List Str) :
    Outcome (Streamer × Option GoError) :=
  if s.stopped then .ret (s, some .ErrStreamerStopped)
  else sendAndReturn s (multicastTargets s users) (makePayload event data)

/-- The targets built by `Unicast`: a slice of length one, holding nil, whose element
is replaced when `clientMap` has the identifier. -/
def unicastTargets (s : Streamer) (clientID : ID) : List (Option Ptr) :=
  let targets : List (Option Ptr) := [none]
  match s.clientMap.get clientID with
  | some c => targets.set 0 (some c)
  | none => targets

/-- The method `Unicast`. -/
def Unicast (s : Streamer) (event data : Str) (clientID : ID) :
    Outcome (Streamer × Option GoError) :=
  if s.stopped then .ret (s, some .ErrStreamerStopped)
  else sendAndReturn s (unicastTargets s clientID) (makePayload event data)

/-- The method `addClient`. -/
def addClient (s : Streamer) (c : Ptr) : Outcome (Streamer × Option GoError) :=
  if s.stopped then .ret (s, some .ErrStreamerStopped)
  else
    match deref s.heap c with
    | none => .panic .nilDereference
    | some cl =>
      let userMap :=
        match s.userMap.get cl.userKey with
        | some arr => s.userMap.set cl.userKey (arr.set cl.connectionID c)
        | none => s.userMap.set cl.userKey (GoMap.set [] cl.connectionID c)
      .ret ({ s with userMap := userMap, clientMap := s.clientMap.set cl.connectionID c }, none)

/-- The method `NewClient`.  The identifier returned by `generateRandomID` is the
argument `id`; the failure of the system's random source is outside the model.  The
client object is built before `addClient` is called, so `make` panics on a capacity
out of range whether the streamer runs or not.  The new client is allocated at the
end of the store. -/
def NewClient (s : Streamer) (userKey : Str) (id : ID) :
    Outcome (Streamer × Option Ptr × Option GoError) :=
  if maxChanCap < s.options.SendChanBufferSize then .panic .makechanSizeOutOfRange
  else
    let client : Ptr := s.heap.length
    let s : Streamer :=
      { s with heap := s.heap ++ [{ userKey := userKey, connectionID := id,
                                    send := { buf := [], cap := s.options.SendChanBufferSize,
                                              closed := false } }] }
    match addClient s client with
    | .ret (s, some err) =>
      match closeSend s.heap client with
      | .ret heap => .ret ({ s with heap := heap }, none, some err)
      | .panic e => .panic e
      | .blocked => .blocked
      | .spins => .spins
    | .ret (s, none) => .ret (s, some client, none)
    | .panic e => .panic e
    | .blocked => .blocked
    | .spins => .spins

/-- The method `removeClient`. -/
def removeClient (s : Streamer) (c : Ptr) : Outcome (Streamer × Option GoError) :=
  match deref s.heap c with
  | none => .panic .nilDereference
  | some cl =>
    let userMap :=
      match s.userMap.get cl.userKey with
      | some arr => s.userMap.set cl.userKey (arr.delete cl.connectionID)
      | none => s.userMap
    .ret ({ s with userMap := userMap, clientMap := s.clientMap.delete cl.connectionID }, none)

/-- The method `GetUserKey`. -/
def GetUserKey (c : Client) : Str := c.userKey

/-- The method `GetConnectionID`. -/
def GetConnectionID (c : Client) : ID := c.connectionID

/-! ## `handler.go` -/

/-- An `http.ResponseWriter`: whether it is an `http.Flusher`, its header map (an
`http.Header`, a `map[string][]string`), the status written, and all bytes handed to
`Write`, in order. -/
structure ResponseWriter where
  flusher : Bool
  header : GoMap Str (List Str)
  status : Option Nat
  body : Str

/-- The call `rw.Write(b)`. -/
def Write (rw : ResponseWriter) (b : Str) : ResponseWriter :=
  { rw with body := rw.body ++ b }

/-- The writes of the `if ok` branch of `Dispatcher` for a received payload. -/
def writePayload (rw : ResponseWriter) (p : payload) : ResponseWriter :=
  let rw :=
    if p.event.length > 0 then
      Write (Write (Write rw "event:".toList) p.event) "\n".toList
    else rw
  let rw := p.data.foldl (fun rw v => Write (Write (Write rw "data:".toList) v) "\n".toList) rw
  Write rw "\n".toList

/-- The case of the `select` statement of `Dispatcher` that is taken. -/
inductive Select where
  | done
  | recv
  | tick
  deriving DecidableEq, Repr

/-- The inner loop of the `done` case, `for { select { case <-client.send: default:
return } }`: it takes the queued values away; on a closed channel the receive is
always ready and the loop has no exit. -/
def drain (heap : List Client) (client : Ptr) : Outcome (List Client) :=
  match deref heap client with
  | none => .panic .nilDereference
  | some cl =>
    if cl.send.closed then .spins
    else .ret (heap.set client { cl with send := { cl.send with buf := [] } })

/-- One iteration of the loop of `Dispatcher` for a writer that is a flusher, given
the case the `select` takes.  The result says whether the loop goes on (`true`) or
the method returns (`false`).  A receive that is not ready waits. -/
def Dispatcher.step (s : Streamer) (client : Ptr) (rw : ResponseWriter) :
    Select → Outcome (Streamer × ResponseWriter × Bool)
  | .done =>
    match removeClient s client with
    | .ret (s, _) =>
      match drain s.heap client with
      | .ret heap => .ret ({ s with heap := heap }, rw, false)
      | .panic e => .panic e
      | .blocked => .blocked
      | .spins => .spins
    | .panic e => .panic e
    | .blocked => .blocked
    | .spins => .spins
  | .recv =>
    match deref s.heap client with
    | none => .panic .nilDereference
    | some cl =>
      match cl.send.buf with
      | p :: rest =>
        .ret ({ s with heap := s.heap.set client { cl with send := { cl.send with buf := rest } } },
              writePayload rw p, true)
      | [] => if cl.send.closed then .ret (s, rw, false) else .blocked
  | .tick => .ret (s, Write rw ":\n\n".toList, true)

/-- The bytes `Dispatcher` writes for a payload it receives: the body of the writer
after the `if ok` branch, beyond the body before it. -/
def encode (p : payload) : Str :=
  (writePayload { flusher := true, header := [], status := none, body := [] } p).body

/-- The frame of section 6 of the specification for an event name and data lines. -/
def frame (e : Str) (ls : List Str) : Str :=
  (if e = [] then [] else "event:".toList ++ e ++ "\n".toList)
    ++ (ls.map (fun l => "data:".toList ++ l ++ "\n".toList)).flatten ++ "\n".toList

/-! ## Sequential executions -/

/-- A call of the package, as it appears in a sequential execution.  `Dispatch` is one
iteration of the loop of `Dispatcher` for a client, with the case its `select` takes. -/
inductive Call where
  | Start
  | Stop
  | NewClient (userKey : Str) (id : ID)
  | removeClient (c : Ptr)
  | Broadcast (event data : Str)
  | Multicast (event data : Str) (users : List Str)
  | Unicast (event data : Str) (clientID : ID)
  | Dispatch (client : Ptr) (ev : Select)

/-- The outcome of a call without the values it returns: the state it leaves. -/
def Outcome.state {α β : Type} (f : α → β) : Outcome α → Outcome β
  | .ret a => .ret (f a)
  | .panic e => .panic e
  | .blocked => .blocked
  | .spins => .spins

/-- The state a call leaves when it returns. -/
def call (s : Streamer) : Call → Outcome Streamer
  | .Start => .ret (Start s)
  | .Stop => Stop s
  | .NewClient userKey id => (NewClient s userKey id).state (·.1)
  | .removeClient c => (removeClient s c).state (·.1)
  | .Broadcast event data => (Broadcast s event data).state (·.1)
  | .Multicast event data users => (Multicast s event data users).state (·.1)
  | .Unicast event data clientID => (Unicast s event data clientID).state (·.1)
  | .Dispatch client ev =>
    (Dispatcher.step s client { flusher := true, header := [], status := none, body := [] } ev).state
      (·.1)

/-- A sequence of calls, one after the other; it ends at the first call that does not
return. -/
def run : Streamer → List Call → Outcome Streamer
  | s, [] => .ret s
  | s, c :: cs =>
    match call s c with
    | .ret s' => run s' cs
    | .panic e => .panic e
    | .blocked => .blocked
    | .spins => .spins

/-- The identifier a `NewClient` call is given has not been generated before. -/
def Call.fresh (s : Streamer) : Call → Prop
  | .NewClient _ id => ∀ cl ∈ s.heap, cl.connectionID ≠ id
  | _ => True

/-- The states of the sequential executions that start with `NewStreamer`, in which
the generated identifiers are pairwise distinct. -/
inductive Reachable : Streamer → Prop where
  | init (options : Options) : Reachable (NewStreamer options)
  | step {s s' : Streamer} (c : Call) :
      Reachable s → c.fresh s → call s c = .ret s' → Reachable s'

/-- The client at address `p` is present in the by-user index under its own user key
and identifier. -/
def inUserMap (s : Streamer) (p : Ptr) : Bool :=
  match deref s.heap p with
  | none => false
  | some c => (s.userMap.get c.userKey).bind (fun arr => arr.get c.connectionID) == some p

/-- The client at address `p` is present in the by-ID index under its own identifier. -/
def inClientMap (s : Streamer) (p : Ptr) : Bool :=
  match deref s.heap p with
  | none => false
  | some c => s.clientMap.get c.connectionID == some p

/-- A registered connection: present in both indices. -/
def registered (s : Streamer) (p : Ptr) : Bool :=
  inUserMap s p && inClientMap s p

/-- A client with one more payload at the end of its outbox. -/
def enqueue (c : Client) (m : payload) : Client :=
  { c with send := { c.send with buf := c.send.buf ++ [m] } }

/-- The outbox of a client is not full. -/
def hasFreeSpace (c : Client) : Prop :=
  c.send.buf.length < c.send.cap

instance : DecidablePred hasFreeSpace :=
  fun c => inferInstanceAs (Decidable (c.send.buf.length < c.send.cap))

/-- The clients stored in the by-user index. -/
def userClients (userMap : GoMap Str (GoMap ID Ptr)) : List Ptr :=
  userMap.flatMap (fun v => v.2.map (·.2))

/-- The clients stored in the by-user index under a given user key. -/
def clientsOf (userMap : GoMap Str (GoMap ID Ptr)) (k : Str) : List Ptr :=
  match userMap.get k with
  | none => []
  | some arr => arr.map (·.2)

/-- The client object that `NewClient` allocates for a user key and an identifier. -/
def newClient (s : Streamer) (userKey : Str) (id : ID) : Client :=
  { userKey := userKey, connectionID := id,
    send := { buf := [], cap := s.options.SendChanBufferSize, closed := false } }

/-- The user keys of a list that are not in `seen`, each once, in the order of their
first occurrence. -/
def distinctFrom : List Str → List Str → List Str
  | _, [] => []
  | seen, k :: ks => if k ∈ seen then distinctFrom seen ks else k :: distinctFrom (k :: seen) ks

/-- A list of user keys with its duplicates removed. -/
def distinct (users : List Str) : List Str :=
  distinctFrom [] users

/-- Two stores hold clients with the same user keys and identifiers at the same
addresses. -/
def SameIds (heap heap' : List Client) : Prop :=
  heap'.length = heap.length ∧
    ∀ p c, deref heap p = some c →
      ∃ c', deref heap' p = some c' ∧ c'.userKey = c.userKey
        ∧ c'.connectionID = c.connectionID

/-- Two stores hold the same clients up to the contents of their outboxes. -/
def SameShape (heap heap' : List Client) : Prop :=
  heap'.length = heap.length ∧
    ∀ p c, deref heap p = some c →
      ∃ c', deref heap' p = some c' ∧ c'.userKey = c.userKey
        ∧ c'.connectionID = c.connectionID ∧ c'.send.closed = c.send.closed
        ∧ c'.send.cap = c.send.cap

/-- The representation invariant of the registry: maps have each key once, every
client of the by-user index is filed under its own key and identifier, has an open
outbox and is in the by-ID index, and allocated clients have distinct identifiers. -/
structure Inv (userMap : GoMap Str (GoMap ID Ptr)) (clientMap : GoMap ID Ptr)
    (heap : List Client) : Prop where
  userKeys : (userMap.map Prod.fst).Nodup
  innerKeys : ∀ e ∈ userMap, (e.2.map Prod.fst).Nodup
  filed : ∀ e ∈ userMap, ∀ f ∈ e.2, ∃ c, deref heap f.2 = some c ∧ c.userKey = e.1
            ∧ c.connectionID = f.1 ∧ c.send.closed = false
  both : ∀ e ∈ userMap, ∀ f ∈ e.2, clientMap.get f.1 = some f.2
  ids : ∀ p q c d, deref heap p = some c → deref heap q = some d →
          c.connectionID = d.connectionID → p = q

/-! ## Example states -/

/-- The streamer with the default options after `Start` and one `NewClient` with user
key "k" and generated identifier 1. -/
def oneClient : Streamer :=
  { userMap := [("k".toList, [(1, 0)])], clientMap := [(1, 0)], options := NewDefaultOptions,
    stopped := false, wg := 0,
    heap := [{ userKey := "k".toList, connectionID := 1,
               send := { buf := [], cap := 100, closed := false } }] }

/-- The streamer with the default options after `Start` and two `NewClient` calls with
the same user key "k" and generated identifiers 1 and 2. -/
def twoClients : Streamer :=
  { userMap := [("k".toList, [(1, 0), (2, 1)])], clientMap := [(1, 0), (2, 1)],
    options := NewDefaultOptions, stopped := false, wg := 0,
    heap := [{ userKey := "k".toList, connectionID := 1,
               send := { buf := [], cap := 100, closed := false } },
             { userKey := "k".toList, connectionID := 2,
               send := { buf := [], cap := 100, closed := false } }] }

/-- The streamer with `SendChanBufferSize` 1 after `Start`, a `NewClient` with the key
"a" and the generated identifier 1, a `NewClient` with the key "b" and the generated
identifier 2, and a `Unicast` of the event "e" with the data "d" to the identifier 1:
the outbox of the first client is full and the outbox of the second is empty. -/
def fullAndEmpty : Streamer :=
  { userMap := [("a".toList, [(1, 0)]), ("b".toList, [(2, 1)])], clientMap := [(1, 0), (2, 1)],
    options := { NoXAccelBuffering := true, SendChanBufferSize := 1, UserAuthenticator := none },
    stopped := false, wg := 0,
    heap := [{ userKey := "a".toList, connectionID := 1,
               send := { buf := [{ event := "e".toList, data := ["d".toList] }], cap := 1,
                         closed := false } },
             { userKey := "b".toList, connectionID := 2,
               send := { buf := [], cap := 1, closed := false } }] }

/-! ## `handler.go`: the response headers -/

/-- Go's `textproto.validHeaderFieldByte`: the characters of an RFC 7230 token,
letters, digits and fifteen marks (the last two are the apostrophe and the grave
accent). -/
def validHeaderFieldByte (c : Char) : Bool :=
  c.isAlphanum || "!#$%&*+-.^_|~".toList.contains c || c == Char.ofNat 39 || c == Char.ofNat 96

/-- The loop of Go's `textproto.canonicalMIMEHeaderKey`: upper case for a letter at
the start and after a dash, lower case for every other letter. -/
def canonicalize : Bool → Str → Str
  | _, [] => []
  | upper, c :: t =>
    let c' :=
      if upper && c.isLower then c.toUpper
      else if !upper && c.isUpper then c.toLower
      else c
    c' :: canonicalize (c' == '-') t

/-- Go's `textproto.CanonicalMIMEHeaderKey`: a key with a character that is not
allowed in a field name is returned as it is, every other key in canonical case. -/
def CanonicalMIMEHeaderKey (s : Str) : Str :=
  if s.all validHeaderFieldByte then canonicalize true s else s

/-- Go's `http.Header.Set(key, value)`: the canonical key gets the single value. -/
def Header.Set (h : GoMap Str (List Str)) (key value : Str) : GoMap Str (List Str) :=
  h.set (CanonicalMIMEHeaderKey key) [value]

/-- The method `SetHTTPHeaders`. -/
def SetHTTPHeaders (s : Streamer) (rw : ResponseWriter) : ResponseWriter :=
  let rw := { rw with header := Header.Set rw.header "Cache-Control".toList "no-cache".toList }
  let rw := { rw with header := Header.Set rw.header "Content-Type".toList
                                  "text/event-stream".toList }
  let rw := { rw with header := Header.Set rw.header "Connection".toList "keep-alive".toList }
  if s.options.NoXAccelBuffering then
    { rw with header := Header.Set rw.header "X-Accel-Buffering".toList "no".toList }
  else rw

/-! ## `processor.go`: the JSON variants -/

/-- The method `BroadcastJson`.  `Marshal` stands for `json.Marshal` followed by the
conversion of its bytes to a string: it gives the text or an error. -/
def BroadcastJson {α : Type} (Marshal : α → Except GoError Str) (s : Streamer) (event : Str)
    (data : α) : Outcome (Streamer × Option GoError) :=
  match Marshal data with
  | .error err => .ret (s, some err)
  | .ok json => Broadcast s event json

/-- The method `MulticastJson`. -/
def MulticastJson {α : Type} (Marshal : α → Except GoError Str) (s : Streamer) (event : Str)
    (data : α) (users : List Str) : Outcome (Streamer × Option GoError) :=
  match Marshal data with
  | .error err => .ret (s, some err)
  | .ok json => Multicast s event json users

/-- The method `UnicastJson`. -/
def UnicastJson {α : Type} (Marshal : α → Except GoError Str) (s : Streamer) (event : Str)
    (data : α) (clientID : ID) : Outcome (Streamer × Option GoError) :=
  match Marshal data with
  | .error err => .ret (s, some err)
  | .ok json => Unicast s event json clientID

/-- A serializer for the examples: it fails on `none` and gives the text of `some`. -/
def exampleMarshal : Option Str → Except GoError Str
  | none => .error (.other "unsupported type".toList)
  | some t => .ok t

/-! ## Line feeds in a frame -/

/-- Whether a string has two line feeds in a row, the string being read behind a
character that was a line feed (`prev`) or was not. -/
def scanLFLF : Bool → Str → Bool
  | _, [] => false
  | prev, c :: t => (prev && c == '\n') || scanLFLF (c == '\n') t

/-- Whether the string is read, at its end, behind a line feed. -/
def afterLF : Bool → Str → Bool
  | prev, [] => prev
  | _, c :: t => afterLF (c == '\n') t

/-! ## The invariant of the by-ID index -/

/-- The by-ID index has each identifier once and files every client under its own
identifier. -/
structure InvID (clientMap : GoMap ID Ptr) (heap : List Client) : Prop where
  keys : (clientMap.map Prod.fst).Nodup
  filed : ∀ f ∈ clientMap, ∃ d, deref heap f.2 = some d ∧ d.connectionID = f.1

/-! ## A fan-out call and `Stop` side by side -/

/-- Where a fan-out call stands: before its read-locked section; behind it, with the
targets it collected; inside `send` behind `wg.Add(1)`, with the targets still to be
served; returned. -/
inductive FanoutPC where
  | start
  | collected (targets : List (Option Ptr))
  | sending (rest : List (Option Ptr))
  | returned (err : Option GoError)
  deriving DecidableEq, Repr

/-- Where a `Stop` call stands: before its first locked section; before `wg.Wait()`;
behind `wg.Wait()`; inside its second locked section, with the channels still to be
closed; returned. -/
inductive StopPC where
  | start
  | waiting
  | waited
  | locked (rest : List Ptr)
  | returned
  deriving DecidableEq, Repr

/-- The state shared by one fan-out call and one `Stop` call that run at the same
time, with the place each of them has reached. -/
structure Conc where
  s : Streamer
  fanout : FanoutPC
  stop : StopPC

/-- The two goroutines. -/
inductive Thread where
  | fanout
  | stop
  deriving DecidableEq, Repr

/-- The next atomic action of a goroutine.  A section under the mutex is one action;
`wg.Add`, `wg.Wait`, `wg.Done`, a channel send and a `close` are actions of their own.
`targets` is the collection of targets of the fan-out call under the read lock, `m`
its payload.  `blocked` says that the goroutine cannot move now: it waits for the
mutex, for the counter or for room in a channel, or it has returned. -/
def Conc.step (targets : Streamer → List (Option Ptr)) (m : payload) (c : Conc) :
    Thread → Outcome Conc
  | .fanout =>
    match c.fanout with
    | .start =>
      match c.stop with
      | .locked _ => .blocked
      | _ =>
        if c.s.stopped then .ret { c with fanout := .returned (some .ErrStreamerStopped) }
        else .ret { c with fanout := .collected (targets c.s) }
    | .collected ts => .ret { c with s := { c.s with wg := c.s.wg + 1 }, fanout := .sending ts }
    | .sending [] => .ret { c with s := { c.s with wg := c.s.wg - 1 }, fanout := .returned none }
    | .sending (t :: ts) =>
      match chanSend c.s.heap t m with
      | .ret heap => .ret { c with s := { c.s with heap := heap }, fanout := .sending ts }
      | .panic e => .panic e
      | .blocked => .blocked
      | .spins => .spins
    | .returned _ => .blocked
  | .stop =>
    match c.stop with
    | .start => .ret { c with s := { c.s with stopped := true }, stop := .waiting }
    | .waiting => if c.s.wg ≠ 0 then .blocked else .ret { c with stop := .waited }
    | .waited => .ret { c with stop := .locked (rangeClients c.s.userMap) }
    | .locked (p :: rest) =>
      match closeSend c.s.heap p with
      | .ret heap => .ret { c with s := { c.s with heap := heap }, stop := .locked rest }
      | .panic e => .panic e
      | .blocked => .blocked
      | .spins => .spins
    | .locked [] => .ret { c with s := { c.s with userMap := [] }, stop := .returned }
    | .returned => .blocked

/-- A schedule: the goroutine that moves at each step. -/
def Conc.run (targets : Streamer → List (Option Ptr)) (m : payload) :
    Conc → List Thread → Outcome Conc
  | c, [] => .ret c
  | c, t :: ts =>
    match Conc.step targets m c t with
    | .ret c' => Conc.run targets m c' ts
    | .panic e => .panic e
    | .blocked => .blocked
    | .spins => .spins

/-! ## The indices after `removeClient` and `NewClient` -/

/-- The by-user index after `removeClient` for a client. -/
def userMapWithout (userMap : GoMap Str (GoMap ID Ptr)) (c : Client) : GoMap Str (GoMap ID Ptr) :=
  match userMap.get c.userKey with
  | some arr => userMap.set c.userKey (arr.delete c.connectionID)
  | none => userMap

/-- The by-user index after a successful `addClient` of the client at address `p` with
a user key and an identifier. -/
def userMapWith (userMap : GoMap Str (GoMap ID Ptr)) (userKey : Str) (id : ID) (p : Ptr) :
    GoMap Str (GoMap ID Ptr) :=
  userMap.set userKey (((userMap.get userKey).getD []).set id p)

/-- The connection stored in the by-user index under a user key and an identifier. -/
def lookupUser (userMap : GoMap Str (GoMap ID Ptr)) (k : Str) (id : ID) : Option Ptr :=
  (userMap.get k).bind (fun arr => arr.get id)

/-- The state `removeClient` leaves for a client. -/
def stateWithout (s : Streamer) (c : Client) : Streamer :=
  { s with userMap := userMapWithout s.userMap c,
           clientMap := s.clientMap.delete c.connectionID }

/-- The state a successful `NewClient` leaves for a user key and an identifier. -/
def stateWith (s : Streamer) (userKey : Str) (id : ID) : Streamer :=
  { s with heap := s.heap ++ [newClient s userKey id],
           userMap := userMapWith s.userMap userKey id s.heap.length,
           clientMap := s.clientMap.set id s.heap.length }

/-! ## The wire format -/

theorem Index_single_nil (c : Char) : Index [] [c] = none := by
  simp [Index]

theorem Index_single_cons (c x : Char) (t : Str) :
    Index (x :: t) [c] = if c = x then some 0 else (Index t [c]).map (· + 1) := by
  simp [Index, List.isPrefixOf]

theorem Index_single_none {c : Char} {s : Str} (h : Index s [c] = none) : c ∉ s := by
  induction s with
  | nil => simp
  | cons x t ih =>
    rw [Index_single_cons] at h
    by_cases hx : c = x
    · simp [hx] at h
    · simp only [hx, if_false, Option.map_eq_none'] at h
      simp [hx, ih h]

theorem Index_single_some {c : Char} {s : Str} {m : Nat} (h : Index s [c] = some m) :
    m < s.length ∧ c ∉ s.take m ∧ s.take m ++ c :: s.drop (m + 1) = s := by
  induction s generalizing m with
  | nil => simp [Index_single_nil] at h
  | cons x t ih =>
    rw [Index_single_cons] at h
    by_cases hx : c = x
    · simp only [hx, if_true, Option.some.injEq] at h
      subst h
      simp [hx]
    · simp only [hx, if_false, Option.map_eq_some'] at h
      obtain ⟨j, hj, rfl⟩ := h
      obtain ⟨h1, h2, h3⟩ := ih hj
      refine ⟨by simpa using h1, ?_, ?_⟩
      · simp [List.take_succ_cons, hx, h2]
      · simp [List.take_succ_cons, h3]

theorem Index_single_count {c : Char} {s : Str} {m : Nat} (h : Index s [c] = some m) :
    s.count c = (s.drop (m + 1)).count c + 1 := by
  obtain ⟨_, h2, h3⟩ := Index_single_some h
  conv_lhs => rw [← h3]
  simp [List.count_append, List.count_eq_zero_of_not_mem h2]

theorem Index_single_drop_length {c : Char} {s : Str} {m : Nat} (h : Index s [c] = some m) :
    (s.drop (m + 1)).length < s.length := by
  obtain ⟨h1, _, _⟩ := Index_single_some h
  simp only [List.length_drop]
  omega

/-- The loop of `Count` has counted every occurrence as soon as its bound exceeds the
length of the string. -/
theorem Count_loop_fuel (c : Char) (fuel : Nat) (s : Str) (h : s.length < fuel) :
    Count.loop [c] fuel s = s.count c := by
  induction fuel generalizing s with
  | zero => omega
  | succ k ih =>
    unfold Count.loop
    cases hi : Index s [c] with
    | none => simp [List.count_eq_zero_of_not_mem (Index_single_none hi)]
    | some m =>
      have hlen := Index_single_drop_length hi
      simp only [List.length_singleton]
      rw [ih _ (by omega), Index_single_count hi]

theorem Count_single (c : Char) (s : Str) : Count s [c] = s.count c := by
  simp [Count, Count_loop_fuel c (s.length + 1) s (by omega)]

theorem genSplit_loop_ne_nil (sep : Str) (sepSave k : Nat) (s : Str) :
    genSplit.loop sep sepSave k s ≠ [] := by
  cases k with
  | zero => simp [genSplit.loop]
  | succ k =>
    unfold genSplit.loop
    cases Index s sep <;> simp

theorem Join_cons (a : Str) (l : List Str) (sep : Str) (h : l ≠ []) :
    Join (a :: l) sep = a ++ sep ++ Join l sep := by
  cases l with
  | nil => exact absurd rfl h
  | cons b rest => rfl

theorem genSplit_loop_join (c : Char) (k : Nat) (s : Str) :
    Join (genSplit.loop [c] 0 k s) [c] = s := by
  induction k generalizing s with
  | zero => simp [genSplit.loop, Join]
  | succ k ih =>
    unfold genSplit.loop
    cases hi : Index s [c] with
    | none => simp [Join]
    | some m =>
      obtain ⟨_, _, h3⟩ := Index_single_some hi
      simp only [List.length_singleton, Nat.add_zero]
      rw [Join_cons _ _ _ (genSplit_loop_ne_nil _ _ _ _), ih]
      simpa using h3

theorem genSplit_loop_free (c : Char) (k : Nat) (s : Str) (h : s.count c ≤ k) :
    ∀ l ∈ genSplit.loop [c] 0 k s, c ∉ l := by
  induction k generalizing s with
  | zero =>
    intro l hl
    simp only [genSplit.loop, List.mem_singleton] at hl
    subst hl
    exact List.count_eq_zero.mp (by omega)
  | succ k ih =>
    unfold genSplit.loop
    cases hi : Index s [c] with
    | none =>
      intro l hl
      simp only [List.mem_singleton] at hl
      subst hl
      exact Index_single_none hi
    | some m =>
      obtain ⟨_, h2, _⟩ := Index_single_some hi
      have hc := Index_single_count hi
      intro l hl
      simp only [List.length_singleton, Nat.add_zero, List.mem_cons] at hl
      rcases hl with rfl | hl
      · exact h2
      · exact ih _ (by omega) l hl

theorem genSplit_loop_length (c : Char) (k : Nat) (s : Str) (h : s.count c ≤ k) :
    (genSplit.loop [c] 0 k s).length = s.count c + 1 := by
  induction k generalizing s with
  | zero =>
    have : s.count c = 0 := by omega
    simp [genSplit.loop, this]
  | succ k ih =>
    unfold genSplit.loop
    cases hi : Index s [c] with
    | none => simp [List.count_eq_zero_of_not_mem (Index_single_none hi)]
    | some m =>
      have hc := Index_single_count hi
      simp only [List.length_singleton, List.length_cons]
      rw [ih _ (by simpa using (by omega : (s.drop (m + 1)).count c ≤ k)), hc]
      simp

/-- What `SplitN(d, "\n", -1)` is: the loop of `genSplit`, run once per line feed. -/
theorem SplitN_LF (d : Str) :
    SplitN d LF (-1) = genSplit.loop LF 0 (d.count '\n') d := by
  have hc : Count d LF = d.count '\n' := Count_single '\n' d
  have hle : d.count '\n' ≤ d.length := List.count_le_length _ _
  unfold SplitN genSplit
  have h1 : ¬ ((-1 : Int) = 0) := by decide
  have h2 : ¬ (LF = []) := by decide
  simp only [h1, h2, if_false, hc]
  have h3 : ((-1 : Int) < 0) := by decide
  simp only [h3, if_true]
  have h4 : ¬ ((d.count '\n' : Int) + 1 > (d.length : Int) + 1) := by omega
  simp only [h4, if_false]
  congr 1
  omega

theorem Write_body (rw : ResponseWriter) (b : Str) : (Write rw b).body = rw.body ++ b := rfl

theorem writePayload_data_body (rw : ResponseWriter) (ls : List Str) :
    (ls.foldl (fun rw v => Write (Write (Write rw "data:".toList) v) "\n".toList) rw).body
      = rw.body ++ (ls.map (fun l => "data:".toList ++ l ++ "\n".toList)).flatten := by
  induction ls generalizing rw with
  | nil => simp
  | cons l ls ih =>
    rw [List.foldl_cons, ih, List.map_cons, List.flatten_cons]
    simp only [Write, List.append_assoc]

theorem writePayload_body (rw : ResponseWriter) (p : payload) :
    (writePayload rw p).body = rw.body ++ frame p.event p.data := by
  unfold writePayload frame
  by_cases he : p.event = []
  · have hlen : ¬ (p.event.length > 0) := by simp [he]
    simp only [hlen, he, if_false, if_true]
    rw [Write_body, writePayload_data_body]
    simp [List.append_assoc]
  · have hpos : p.event.length > 0 := List.length_pos.mpr he
    simp only [hpos, he, if_false, if_true]
    rw [Write_body, writePayload_data_body, Write_body, Write_body, Write_body]
    simp only [List.append_assoc]

/-- C1: for every event name `e` and data lines `ls`, the bytes the Dispatcher writes
for the message are "event:" ++ e ++ "\n" when `e` is not empty, then
"data:" ++ l ++ "\n" for each line `l` in order, then "\n"; receiving the message from
the outbox appends exactly these bytes to what was written before and the loop goes
on.  Event "e" with lines "a", "b" gives "event:e\ndata:a\ndata:b\n\n". -/
theorem C1_dispatcher_frame (e : Str) (ls : List Str) :
    encode { event := e, data := ls }
        = (if e = [] then [] else "event:".toList ++ e ++ "\n".toList)
            ++ (ls.map (fun l => "data:".toList ++ l ++ "\n".toList)).flatten ++ "\n".toList
      ∧ encode { event := e, data := ls } = frame e ls
      ∧ (∀ (s : Streamer) (client : Ptr) (rw : ResponseWriter) (cl : Client) (rest : List payload),
          deref s.heap client = some cl → cl.send.buf = { event := e, data := ls } :: rest →
          Dispatcher.step s client rw .recv
              = .ret ({ s with heap := s.heap.set client
                                  { cl with send := { cl.send with buf := rest } } },
                      writePayload rw { event := e, data := ls }, true)
            ∧ (writePayload rw { event := e, data := ls }).body
                = rw.body ++ encode { event := e, data := ls })
      ∧ encode { event := "e".toList, data := ["a".toList, "b".toList] }
          = "event:e\ndata:a\ndata:b\n\n".toList := by
  have henc : ∀ p : payload, encode p = frame p.event p.data := by
    intro p
    simp [encode, writePayload_body]
  refine ⟨henc _, henc _, ?_, by decide⟩
  intro s client rw cl rest hcl hbuf
  constructor
  · simp only [Dispatcher.step, hcl, hbuf]
  · rw [writePayload_body, henc]

/-- C1 at a state with one client whose outbox holds the message of the claim, behind
a heartbeat already written. -/
theorem C1_dispatcher_frame_witness :
    Dispatcher.step
        { userMap := [], clientMap := [], options := NewDefaultOptions, stopped := false, wg := 0,
          heap := [{ userKey := [], connectionID := 7,
                     send := { buf := [{ event := "e".toList, data := ["a".toList, "b".toList] }],
                               cap := 100, closed := false } }] }
        0 { flusher := true, header := [], status := none, body := ":\n\n".toList } .recv
        = .ret ({ userMap := [], clientMap := [], options := NewDefaultOptions, stopped := false,
                  wg := 0,
                  heap := [{ userKey := [], connectionID := 7,
                             send := { buf := [], cap := 100, closed := false } }] },
                writePayload { flusher := true, header := [], status := none, body := ":\n\n".toList }
                  { event := "e".toList, data := ["a".toList, "b".toList] }, true)
      ∧ (writePayload { flusher := true, header := [], status := none, body := ":\n\n".toList }
            { event := "e".toList, data := ["a".toList, "b".toList] }).body
          = ":\n\n".toList ++ encode { event := "e".toList, data := ["a".toList, "b".toList] } :=
  (C1_dispatcher_frame "e".toList ["a".toList, "b".toList]).2.2.1
    { userMap := [], clientMap := [], options := NewDefaultOptions, stopped := false, wg := 0,
      heap := [{ userKey := [], connectionID := 7,
                 send := { buf := [{ event := "e".toList, data := ["a".toList, "b".toList] }],
                           cap := 100, closed := false } }] }
    0 { flusher := true, header := [], status := none, body := ":\n\n".toList }
    { userKey := [], connectionID := 7,
      send := { buf := [{ event := "e".toList, data := ["a".toList, "b".toList] }],
                cap := 100, closed := false } }
    [] rfl rfl

/-- C2: for every event name and data string `d`, `makePayload` keeps the event name
and produces a non-empty list of data lines, none of which contains a line feed, whose
join with "\n" is `d`, and whose length is the number of line feeds in `d` plus one;
event "" with data "a\nb" is written as "data:a\ndata:b\n\n", with no event line. -/
theorem C2_makePayload_lines (event d : Str) :
    (makePayload event d).event = event
      ∧ (makePayload event d).data ≠ []
      ∧ (∀ l ∈ (makePayload event d).data, '\n' ∉ l)
      ∧ Join (makePayload event d).data LF = d
      ∧ (makePayload event d).data.length = d.count '\n' + 1
      ∧ (makePayload [] "a\nb".toList).data = ["a".toList, "b".toList]
      ∧ encode (makePayload [] "a\nb".toList) = "data:a\ndata:b\n\n".toList := by
  have hd : (makePayload event d).data = genSplit.loop LF 0 (d.count '\n') d := SplitN_LF d
  refine ⟨rfl, ?_, ?_, ?_, ?_, by decide, by decide⟩
  · rw [hd]
    exact genSplit_loop_ne_nil _ _ _ _
  · rw [hd]
    exact genSplit_loop_free '\n' _ d (Nat.le_refl _)
  · rw [hd]
    exact genSplit_loop_join '\n' _ d
  · rw [hd]
    exact genSplit_loop_length '\n' _ d (Nat.le_refl _)

/-! ## Calls on a streamer that is not running, and `Stop` -/

theorem set_concat_length (heap : List Client) (c c' : Client) :
    (heap ++ [c]).set heap.length c' = heap ++ [c'] := by
  rw [List.set_append_right _ _ (Nat.le_refl _)]
  simp

theorem closeSend_new (heap : List Client) (c : Client) (h : c.send.closed = false) :
    closeSend (heap ++ [c]) heap.length
      = .ret (heap ++ [{ c with send := { c.send with closed := true } }]) := by
  simp [closeSend, deref, h, set_concat_length]

theorem NewClient_out_of_range (s : Streamer)
    (hcap : maxChanCap < s.options.SendChanBufferSize) (userKey : Str) (id : ID) :
    NewClient s userKey id = .panic .makechanSizeOutOfRange := by
  unfold NewClient
  rw [if_pos hcap]

theorem NewClient_ret_cap {s : Streamer} {userKey : Str} {id : ID}
    {r : Streamer × Option Ptr × Option GoError} (h : NewClient s userKey id = .ret r) :
    s.options.SendChanBufferSize ≤ maxChanCap := by
  by_contra hcap
  rw [NewClient_out_of_range s (Nat.lt_of_not_le hcap)] at h
  cases h

theorem NewClient_stopped (s : Streamer) (hcap : s.options.SendChanBufferSize ≤ maxChanCap)
    (h : s.stopped = true) (userKey : Str) (id : ID) :
    NewClient s userKey id
      = .ret ({ s with heap := s.heap ++ [{ userKey := userKey, connectionID := id,
                                             send := { buf := [],
                                                       cap := s.options.SendChanBufferSize,
                                                       closed := true } }] },
              none, some .ErrStreamerStopped) := by
  unfold NewClient
  rw [if_neg (Nat.not_lt.mpr hcap)]
  simp only [addClient, h, if_true]
  rw [closeSend_new _ _ rfl]

theorem Stop_ret {s s' : Streamer} (h : Stop s = .ret s') :
    s'.userMap = [] ∧ s'.clientMap = s.clientMap ∧ s'.stopped = true
      ∧ s'.options = s.options ∧ s'.wg = s.wg
      ∧ closeEach s.heap (rangeClients s.userMap) = .ret s'.heap := by
  unfold Stop at h
  by_cases hw : s.wg = 0
  · simp only [hw, ne_eq, not_true_eq_false, if_false] at h
    cases hc : closeEach s.heap (rangeClients s.userMap) with
    | ret heap =>
      rw [hc] at h
      simp only [Outcome.ret.injEq] at h
      subst h
      simp [hw]
    | panic e => rw [hc] at h; cases h
    | blocked => rw [hc] at h; cases h
    | spins => rw [hc] at h; cases h
  · simp [hw] at h

/-- C7, as amended: when the streamer is not running, as after `NewStreamer` and
after a `Stop` that returned, `Broadcast`, `Multicast` and `Unicast` return
`ErrStreamerStopped` for all arguments and leave the state as it is; `NewClient`
returns `ErrStreamerStopped` for all arguments and leaves both indices and every
allocated client as they are (the client it had made is closed and dropped) when
`SendChanBufferSize` is a capacity that `make` accepts, and panics in `make`, before
it looks at the flag, when it is not. -/
theorem C7_not_running_rejects (s : Streamer) (h : s.stopped = true)
    (userKey event data : Str) (users : List Str) (id clientID : ID) :
    Broadcast s event data = .ret (s, some .ErrStreamerStopped)
      ∧ Multicast s event data users = .ret (s, some .ErrStreamerStopped)
      ∧ Unicast s event data clientID = .ret (s, some .ErrStreamerStopped)
      ∧ (s.options.SendChanBufferSize ≤ maxChanCap →
          ∃ s', NewClient s userKey id = .ret (s', none, some .ErrStreamerStopped)
            ∧ s'.userMap = s.userMap ∧ s'.clientMap = s.clientMap ∧ s'.stopped = true
            ∧ ∀ p c, deref s.heap p = some c → deref s'.heap p = some c)
      ∧ (maxChanCap < s.options.SendChanBufferSize →
          NewClient s userKey id = .panic .makechanSizeOutOfRange)
      ∧ (∀ options, (NewStreamer options).stopped = true)
      ∧ (∀ s₀ s₁, Stop s₀ = .ret s₁ → s₁.stopped = true) := by
  refine ⟨by simp [Broadcast, h], by simp [Multicast, h], by simp [Unicast, h],
    fun hcap => ⟨_, NewClient_stopped s hcap h userKey id, rfl, rfl, h, ?_⟩,
    fun hcap => NewClient_out_of_range s hcap userKey id, fun _ => rfl,
    fun _ _ hs => (Stop_ret hs).2.2.1⟩
  intro p c hp
  have hlt : p < s.heap.length := (List.getElem?_eq_some_iff.mp hp).1
  simp only [deref] at hp ⊢
  rw [List.getElem?_append_left hlt, hp]

/-- C7, as amended, at the state right after `NewStreamer` with the default options. -/
theorem C7_not_running_rejects_witness :
    Broadcast (NewStreamer NewDefaultOptions) "e".toList "d".toList
        = .ret (NewStreamer NewDefaultOptions, some .ErrStreamerStopped)
      ∧ Multicast (NewStreamer NewDefaultOptions) "e".toList "d".toList ["k".toList]
        = .ret (NewStreamer NewDefaultOptions, some .ErrStreamerStopped)
      ∧ Unicast (NewStreamer NewDefaultOptions) "e".toList "d".toList 1
        = .ret (NewStreamer NewDefaultOptions, some .ErrStreamerStopped)
      ∧ (∃ s', NewClient (NewStreamer NewDefaultOptions) "k".toList 1
            = .ret (s', none, some .ErrStreamerStopped)
          ∧ s'.userMap = (NewStreamer NewDefaultOptions).userMap
          ∧ s'.clientMap = (NewStreamer NewDefaultOptions).clientMap ∧ s'.stopped = true
          ∧ ∀ p c, deref (NewStreamer NewDefaultOptions).heap p = some c
              → deref s'.heap p = some c) :=
  have h := C7_not_running_rejects (NewStreamer NewDefaultOptions) rfl "k".toList "e".toList
    "d".toList ["k".toList] 1 1
  ⟨h.1, h.2.1, h.2.2.1, h.2.2.2.1 (by decide)⟩

/-- C7 as stated fails: the streamer made by `NewStreamer` with a `SendChanBufferSize`
of 2^62 is not running, and `NewClient` on it does not return `ErrStreamerStopped`: it
panics in `make`. -/
theorem C7_counterexample_capacity :
    (NewStreamer { NoXAccelBuffering := true, SendChanBufferSize := 2 ^ 62,
                   UserAuthenticator := none }).stopped = true
      ∧ NewClient (NewStreamer { NoXAccelBuffering := true, SendChanBufferSize := 2 ^ 62,
                                 UserAuthenticator := none }) "k".toList 1
          = .panic .makechanSizeOutOfRange :=
  ⟨rfl, NewClient_out_of_range _ (by decide) _ _⟩

/-- C3: on a running streamer, `Unicast` to an identifier that the by-ID index does
not hold does not return: the slice of targets has length one and keeps its nil
element, and `send` dereferences it. -/
theorem C3_unicast_unknown_id_panics (s : Streamer) (event data : Str) (clientID : ID)
    (hrun : s.stopped = false) (hid : s.clientMap.get clientID = none) :
    unicastTargets s clientID = [none]
      ∧ Unicast s event data clientID = .panic .nilDereference := by
  have ht : unicastTargets s clientID = [none] := by simp [unicastTargets, hid]
  refine ⟨ht, ?_⟩
  simp [Unicast, hrun, ht, sendAndReturn, send, sendEach, chanSend]

/-- C3 at the failing input: a started streamer without clients and the identifier 5. -/
theorem C3_unicast_unknown_id_witness :
    unicastTargets (Start (NewStreamer NewDefaultOptions)) 5 = [none]
      ∧ Unicast (Start (NewStreamer NewDefaultOptions)) "e".toList "d".toList 5
          = .panic .nilDereference :=
  C3_unicast_unknown_id_panics (Start (NewStreamer NewDefaultOptions)) "e".toList "d".toList 5
    rfl rfl

/-- C8: a `Stop` that returns has replaced the by-user index by an empty map and has
left the by-ID index as it was. -/
theorem C8_stop_keeps_clientMap (s s' : Streamer) (h : Stop s = .ret s') :
    s'.userMap = [] ∧ s'.clientMap = s.clientMap := by
  exact ⟨(Stop_ret h).1, (Stop_ret h).2.1⟩

/-- C8 at the failing input: `Start`, `NewClient` with key "k" and identifier 1, then
`Stop`.  The by-ID index still holds the connection, whose outbox is closed. -/
theorem C8_stop_keeps_clientMap_witness :
    ∃ s s', run (NewStreamer NewDefaultOptions) [.Start, .NewClient "k".toList 1] = .ret s
      ∧ Stop s = .ret s'
      ∧ (s'.userMap = [] ∧ s'.clientMap = s.clientMap)
      ∧ s'.clientMap = [(1, 0)]
      ∧ (deref s'.heap 0).map (fun c => c.send.closed) = some true :=
  ⟨_, _, rfl, rfl, C8_stop_keeps_clientMap _ _ rfl, rfl, rfl⟩

/-- C9 at the failing input: after `Start`, `NewClient` with key "k" and identifier 1,
and `Stop`, the connection is present in the by-ID index and absent from the by-user
index. -/
theorem C9_membership_not_atomic :
    ∃ s, run (NewStreamer NewDefaultOptions) [.Start, .NewClient "k".toList 1, .Stop] = .ret s
      ∧ inClientMap s 0 = true ∧ inUserMap s 0 = false :=
  ⟨_, rfl, by decide, by decide⟩

/-- C10 at the failing input: `Start`, `NewClient` with key "k" and identifier 1,
`Stop`, `Start`, and `Unicast` to identifier 1.  Before the `Unicast` the streamer is
running and its by-ID index leads to a connection whose outbox is closed; the
`Unicast` sends on that closed channel. -/
theorem C10_send_on_closed_outbox :
    (∃ s, run (NewStreamer NewDefaultOptions) [.Start, .NewClient "k".toList 1, .Stop, .Start]
            = .ret s
        ∧ s.stopped = false ∧ s.clientMap.get 1 = some 0
        ∧ (deref s.heap 0).map (fun c => c.send.closed) = some true
        ∧ Unicast s "e".toList "d".toList 1 = .panic .sendOnClosedChannel)
      ∧ run (NewStreamer NewDefaultOptions)
          [.Start, .NewClient "k".toList 1, .Stop, .Start, .Unicast "e".toList "d".toList 1]
          = .panic .sendOnClosedChannel :=
  ⟨⟨_, rfl, rfl, rfl, rfl, rfl⟩, rfl⟩

/-! ## Maps -/

namespace GoMap

variable {K V : Type} [DecidableEq K]

theorem get_some_mem {m : GoMap K V} {k : K} {v : V} (h : m.get k = some v) : (k, v) ∈ m := by
  induction m with
  | nil => simp [get] at h
  | cons e m ih =>
    obtain ⟨k', v'⟩ := e
    simp only [get] at h
    by_cases hk : k' = k
    · simp only [hk, if_true, Option.some.injEq] at h
      simp [hk, h]
    · simp only [hk, if_false] at h
      exact List.mem_cons_of_mem _ (ih h)

theorem get_of_mem {m : GoMap K V} (hn : (m.map Prod.fst).Nodup) {k : K} {v : V}
    (h : (k, v) ∈ m) : m.get k = some v := by
  induction m with
  | nil => simp at h
  | cons e m ih =>
    obtain ⟨k', v'⟩ := e
    simp only [List.map_cons, List.nodup_cons, List.mem_map, not_exists, not_and] at hn
    simp only [List.mem_cons, Prod.mk.injEq] at h
    simp only [get]
    rcases h with ⟨rfl, rfl⟩ | h
    · simp
    · have hk : k' ≠ k := fun hkk => hn.1 (k, v) h hkk.symm
      simp only [hk, if_false]
      exact ih hn.2 h

theorem get_set (m : GoMap K V) (k k' : K) (v : V) :
    (m.set k v).get k' = if k = k' then some v else m.get k' := by
  induction m with
  | nil => simp [set, get]
  | cons e m ih =>
    obtain ⟨k₀, v₀⟩ := e
    simp only [set]
    by_cases hk : k₀ = k
    · subst hk
      by_cases hk' : k₀ = k' <;> simp [get, hk']
    · simp only [hk, if_false, get, ih]
      by_cases hk' : k = k'
      · subst hk'
        simp [hk]
      · simp [hk']

theorem get_delete (m : GoMap K V) (k k' : K) :
    (m.delete k).get k' = if k = k' then none else m.get k' := by
  induction m with
  | nil => simp [delete, get]
  | cons e m ih =>
    obtain ⟨k₀, v₀⟩ := e
    simp only [delete]
    by_cases hk : k₀ = k
    · subst hk
      simp only [if_true, ih, get]
      by_cases hk' : k₀ = k' <;> simp [hk']
    · simp only [hk, if_false, get, ih]
      by_cases hk' : k = k'
      · subst hk'
        simp [hk]
      · simp [hk']

theorem mem_keys_set {m : GoMap K V} {k k' : K} {v : V}
    (h : k' ∈ (m.set k v).map Prod.fst) : k' = k ∨ k' ∈ m.map Prod.fst := by
  induction m with
  | nil => simpa [set] using h
  | cons e m ih =>
    obtain ⟨k₀, v₀⟩ := e
    simp only [set] at h
    by_cases hk : k₀ = k
    · simp only [hk, if_true, List.map_cons, List.mem_cons] at h
      rcases h with h | h
      · exact Or.inl h
      · exact Or.inr (by simp only [List.map_cons, List.mem_cons]; exact Or.inr h)
    · simp only [hk, if_false, List.map_cons, List.mem_cons] at h
      rcases h with h | h
      · exact Or.inr (by simp [h])
      · rcases ih h with h' | h'
        · exact Or.inl h'
        · exact Or.inr (by simp only [List.map_cons, List.mem_cons]; exact Or.inr h')

theorem keys_set_nodup {m : GoMap K V} (hn : (m.map Prod.fst).Nodup) (k : K) (v : V) :
    ((m.set k v).map Prod.fst).Nodup := by
  induction m with
  | nil => simp [set]
  | cons e m ih =>
    obtain ⟨k₀, v₀⟩ := e
    simp only [List.map_cons, List.nodup_cons] at hn
    simp only [set]
    by_cases hk : k₀ = k
    · subst hk
      simp only [if_true, List.map_cons, List.nodup_cons]
      exact hn
    · simp only [hk, if_false, List.map_cons, List.nodup_cons]
      refine ⟨fun hmem => ?_, ih hn.2⟩
      rcases mem_keys_set hmem with h' | h'
      · exact hk h'
      · exact hn.1 h'

theorem mem_set {m : GoMap K V} (hn : (m.map Prod.fst).Nodup) {k : K} {v : V} {e : K × V}
    (h : e ∈ m.set k v) : e = (k, v) ∨ (e ∈ m ∧ e.1 ≠ k) := by
  induction m with
  | nil => simpa [set] using h
  | cons e' m ih =>
    obtain ⟨k₀, v₀⟩ := e'
    simp only [List.map_cons, List.nodup_cons, List.mem_map, not_exists, not_and] at hn
    simp only [set] at h
    by_cases hk : k₀ = k
    · simp only [hk, if_true, List.mem_cons] at h
      rcases h with h | h
      · exact Or.inl h
      · exact Or.inr ⟨List.mem_cons_of_mem _ h, fun he => hn.1 e h (he.trans hk.symm)⟩
    · simp only [hk, if_false, List.mem_cons] at h
      rcases h with h | h
      · exact Or.inr ⟨by simp [h], by simp [h, hk]⟩
      · rcases ih hn.2 h with h' | ⟨h1, h2⟩
        · exact Or.inl h'
        · exact Or.inr ⟨List.mem_cons_of_mem _ h1, h2⟩

theorem mem_delete {m : GoMap K V} {k : K} {e : K × V} (h : e ∈ m.delete k) :
    e ∈ m ∧ e.1 ≠ k := by
  induction m with
  | nil => simp [delete] at h
  | cons e' m ih =>
    obtain ⟨k₀, v₀⟩ := e'
    simp only [delete] at h
    by_cases hk : k₀ = k
    · simp only [hk, if_true] at h
      exact ⟨List.mem_cons_of_mem _ (ih h).1, (ih h).2⟩
    · simp only [hk, if_false, List.mem_cons] at h
      rcases h with h | h
      · exact ⟨by simp [h], by simp [h, hk]⟩
      · exact ⟨List.mem_cons_of_mem _ (ih h).1, (ih h).2⟩

theorem keys_delete_nodup {m : GoMap K V} (hn : (m.map Prod.fst).Nodup) (k : K) :
    ((m.delete k).map Prod.fst).Nodup := by
  induction m with
  | nil => simp [delete]
  | cons e m ih =>
    obtain ⟨k₀, v₀⟩ := e
    simp only [List.map_cons, List.nodup_cons, List.mem_map, not_exists, not_and] at hn
    simp only [delete]
    by_cases hk : k₀ = k
    · simp only [hk, if_true]
      exact ih hn.2
    · simp only [hk, if_false, List.map_cons, List.nodup_cons, List.mem_map, not_exists, not_and]
      exact ⟨fun x hx => hn.1 x (mem_delete hx).1, ih hn.2⟩

end GoMap

/-! ## The store of clients -/

theorem deref_lt {heap : List Client} {p : Ptr} {c : Client} (h : deref heap p = some c) :
    p < heap.length :=
  (List.getElem?_eq_some_iff.mp h).1

theorem deref_of_lt {heap : List Client} {p : Ptr} (h : p < heap.length) :
    ∃ c, deref heap p = some c :=
  ⟨heap[p], List.getElem?_eq_getElem h⟩

theorem deref_mem {heap : List Client} {p : Ptr} {c : Client} (h : deref heap p = some c) :
    c ∈ heap := by
  obtain ⟨hlt, rfl⟩ := List.getElem?_eq_some_iff.mp h
  exact List.getElem_mem hlt

theorem deref_set_self {heap : List Client} {p : Ptr} {c : Client} (c' : Client)
    (h : deref heap p = some c) : deref (heap.set p c') p = some c' := by
  simp [deref, List.getElem?_set, deref_lt h]

theorem deref_set_ne (heap : List Client) {p q : Ptr} (c' : Client) (h : p ≠ q) :
    deref (heap.set p c') q = deref heap q := by
  simp [deref, List.getElem?_set, h]

theorem SameIds.reflIds (heap : List Client) : SameIds heap heap :=
  ⟨rfl, fun _ c h => ⟨c, h, rfl, rfl⟩⟩

theorem SameIds.transIds {h₁ h₂ h₃ : List Client} (a : SameIds h₁ h₂) (b : SameIds h₂ h₃) :
    SameIds h₁ h₃ := by
  refine ⟨b.1.trans a.1, fun p c hc => ?_⟩
  obtain ⟨c', hc', k1, i1⟩ := a.2 p c hc
  obtain ⟨c'', hc'', k2, i2⟩ := b.2 p c' hc'
  exact ⟨c'', hc'', k2.trans k1, i2.trans i1⟩

theorem SameShape.reflShape (heap : List Client) : SameShape heap heap :=
  ⟨rfl, fun _ c h => ⟨c, h, rfl, rfl, rfl, rfl⟩⟩

theorem SameShape.transShape {h₁ h₂ h₃ : List Client} (a : SameShape h₁ h₂) (b : SameShape h₂ h₃) :
    SameShape h₁ h₃ := by
  refine ⟨b.1.trans a.1, fun p c hc => ?_⟩
  obtain ⟨c', hc', k1, i1, o1, n1⟩ := a.2 p c hc
  obtain ⟨c'', hc'', k2, i2, o2, n2⟩ := b.2 p c' hc'
  exact ⟨c'', hc'', k2.trans k1, i2.trans i1, o2.trans o1, n2.trans n1⟩

theorem SameShape.sameIds {h₁ h₂ : List Client} (a : SameShape h₁ h₂) : SameIds h₁ h₂ :=
  ⟨a.1, fun p c hc => by
    obtain ⟨c', hc', k, i, _, _⟩ := a.2 p c hc
    exact ⟨c', hc', k, i⟩⟩

theorem sameIds_set {heap : List Client} {p : Ptr} {c : Client} (c' : Client)
    (h : deref heap p = some c)
    (hk : c'.userKey = c.userKey) (hi : c'.connectionID = c.connectionID) :
    SameIds heap (heap.set p c') := by
  refine ⟨List.length_set _ _ _, fun q d hd => ?_⟩
  by_cases hq : p = q
  · subst hq
    rw [h] at hd
    cases hd
    exact ⟨c', deref_set_self c' h, hk, hi⟩
  · exact ⟨d, by rw [deref_set_ne _ _ hq]; exact hd, rfl, rfl⟩

theorem sameShape_set {heap : List Client} {p : Ptr} {c : Client} (c' : Client)
    (h : deref heap p = some c)
    (hk : c'.userKey = c.userKey) (hi : c'.connectionID = c.connectionID)
    (ho : c'.send.closed = c.send.closed) (hn : c'.send.cap = c.send.cap) :
    SameShape heap (heap.set p c') := by
  refine ⟨List.length_set _ _ _, fun q d hd => ?_⟩
  by_cases hq : p = q
  · subst hq
    rw [h] at hd
    cases hd
    exact ⟨c', deref_set_self c' h, hk, hi, ho, hn⟩
  · exact ⟨d, by rw [deref_set_ne _ _ hq]; exact hd, rfl, rfl, rfl, rfl⟩

theorem closeSend_ret {heap heap' : List Client} {p : Ptr} (h : closeSend heap p = .ret heap') :
    ∃ c, deref heap p = some c ∧ c.send.closed = false
      ∧ heap' = heap.set p { c with send := { c.send with closed := true } } := by
  unfold closeSend at h
  cases hc : deref heap p with
  | none => simp [hc] at h
  | some c =>
    rw [hc] at h
    dsimp only at h
    by_cases ho : c.send.closed = true
    · rw [if_pos ho] at h
      cases h
    · rw [if_neg ho] at h
      cases h
      exact ⟨c, rfl, by simpa using ho, rfl⟩

theorem closeEach_sameIds {heap heap' : List Client} {ps : List Ptr}
    (h : closeEach heap ps = .ret heap') : SameIds heap heap' := by
  induction ps generalizing heap with
  | nil =>
    simp only [closeEach, Outcome.ret.injEq] at h
    subst h
    exact SameIds.reflIds _
  | cons p ps ih =>
    simp only [closeEach] at h
    cases hc : closeSend heap p with
    | ret h₁ =>
      rw [hc] at h
      dsimp only at h
      obtain ⟨c, hd, _, rfl⟩ := closeSend_ret hc
      exact SameIds.transIds
        (sameIds_set { c with send := { c.send with closed := true } } hd rfl rfl) (ih h)
    | panic e => rw [hc] at h; cases h
    | blocked => rw [hc] at h; cases h
    | spins => rw [hc] at h; cases h

theorem chanSend_ret {heap heap' : List Client} {t : Option Ptr} {m : payload}
    (h : chanSend heap t m = .ret heap') :
    ∃ p c, t = some p ∧ deref heap p = some c ∧ c.send.closed = false ∧ hasFreeSpace c
      ∧ heap' = heap.set p (enqueue c m) := by
  unfold chanSend at h
  cases t with
  | none => cases h
  | some p =>
    cases hc : deref heap p with
    | none => simp [hc] at h
    | some c =>
      dsimp only at h
      rw [hc] at h
      dsimp only at h
      by_cases ho : c.send.closed = true
      · rw [if_pos ho] at h
        cases h
      · rw [if_neg ho] at h
        by_cases hf : c.send.buf.length < c.send.cap
        · rw [if_pos hf] at h
          cases h
          exact ⟨p, c, rfl, hc, by simpa using ho, hf, rfl⟩
        · rw [if_neg hf] at h
          cases h

theorem chanSend_ok {heap : List Client} {p : Ptr} {c : Client} (m : payload)
    (hd : deref heap p = some c) (ho : c.send.closed = false) (hf : hasFreeSpace c) :
    chanSend heap (some p) m = .ret (heap.set p (enqueue c m)) := by
  unfold hasFreeSpace at hf
  unfold chanSend
  dsimp only
  rw [hd]
  dsimp only
  rw [if_neg (by simp [ho]), if_pos hf]
  rfl

theorem sendEach_sameShape {heap heap' : List Client} {ts : List (Option Ptr)} {m : payload}
    (h : sendEach heap ts m = .ret heap') : SameShape heap heap' := by
  induction ts generalizing heap with
  | nil =>
    simp only [sendEach, Outcome.ret.injEq] at h
    subst h
    exact SameShape.reflShape _
  | cons t ts ih =>
    simp only [sendEach] at h
    cases hc : chanSend heap t m with
    | ret h₁ =>
      rw [hc] at h
      dsimp only at h
      obtain ⟨p, c, _, hd, _, _, rfl⟩ := chanSend_ret hc
      exact (sameShape_set (enqueue c m) hd rfl rfl rfl rfl).transShape (ih h)
    | panic e => rw [hc] at h; cases h
    | blocked => rw [hc] at h; cases h
    | spins => rw [hc] at h; cases h

/-! ## The invariant of the registry -/

theorem Inv.init : Inv [] [] [] := by
  refine ⟨by simp, by simp, by simp, by simp, ?_⟩
  intro p q c d hp
  simp [deref] at hp

theorem SameIds.ids {heap heap' : List Client} (h : SameIds heap heap')
    (hid : ∀ p q c d, deref heap p = some c → deref heap q = some d →
      c.connectionID = d.connectionID → p = q) :
    ∀ p q c d, deref heap' p = some c → deref heap' q = some d →
      c.connectionID = d.connectionID → p = q := by
  intro p q c d hp hq hcd
  obtain ⟨c0, hc0⟩ := deref_of_lt (h.1 ▸ deref_lt hp)
  obtain ⟨d0, hd0⟩ := deref_of_lt (h.1 ▸ deref_lt hq)
  obtain ⟨c', hc', _, ic⟩ := h.2 p c0 hc0
  obtain ⟨d', hd', _, id⟩ := h.2 q d0 hd0
  rw [hp] at hc'
  rw [hq] at hd'
  cases hc'
  cases hd'
  exact hid p q c0 d0 hc0 hd0 (by rw [← ic, ← id, hcd])

theorem Inv.stop {um : GoMap Str (GoMap ID Ptr)} {cm : GoMap ID Ptr} {heap heap' : List Client}
    (h : Inv um cm heap) (hs : SameIds heap heap') : Inv [] cm heap' :=
  ⟨by simp, by simp, by simp, by simp, hs.ids h.ids⟩

theorem Inv.sameShape {um : GoMap Str (GoMap ID Ptr)} {cm : GoMap ID Ptr}
    {heap heap' : List Client} (h : Inv um cm heap) (hs : SameShape heap heap') :
    Inv um cm heap' := by
  refine ⟨h.userKeys, h.innerKeys, ?_, h.both, hs.sameIds.ids h.ids⟩
  intro e he f hf
  obtain ⟨c, hc, hk, hi, ho⟩ := h.filed e he f hf
  obtain ⟨c', hc', hk', hi', ho', _⟩ := hs.2 f.2 c hc
  exact ⟨c', hc', hk'.trans hk, hi'.trans hi, ho'.trans ho⟩

theorem deref_concat {heap : List Client} {c x : Client} {p : Ptr}
    (h : deref (heap ++ [c]) p = some x) :
    deref heap p = some x ∨ (p = heap.length ∧ x = c) := by
  by_cases hlt : p < heap.length
  · left
    simp only [deref] at h ⊢
    rwa [List.getElem?_append_left hlt] at h
  · right
    have hp := deref_lt h
    simp only [List.length_append, List.length_singleton] at hp
    have hpe : p = heap.length :=
      Nat.le_antisymm (Nat.lt_succ_iff.mp hp) (Nat.not_lt.mp hlt)
    subst hpe
    simp only [deref, List.getElem?_concat_length, Option.some.injEq] at h
    exact ⟨rfl, h.symm⟩

theorem deref_concat_old {heap : List Client} (c : Client) {x : Client} {p : Ptr}
    (h : deref heap p = some x) : deref (heap ++ [c]) p = some x := by
  simp only [deref] at h ⊢
  rw [List.getElem?_append_left (deref_lt h), h]

theorem Inv.alloc {um : GoMap Str (GoMap ID Ptr)} {cm : GoMap ID Ptr} {heap : List Client}
    (h : Inv um cm heap) (c : Client)
    (hfresh : ∀ cl ∈ heap, cl.connectionID ≠ c.connectionID) : Inv um cm (heap ++ [c]) := by
  refine ⟨h.userKeys, h.innerKeys, ?_, h.both, ?_⟩
  · intro e he f hf
    obtain ⟨c0, hc0, rest⟩ := h.filed e he f hf
    exact ⟨c0, deref_concat_old c hc0, rest⟩
  · intro p q x y hp hq hxy
    rcases deref_concat hp with hp' | ⟨rfl, rfl⟩ <;> rcases deref_concat hq with hq' | ⟨rfl, rfl⟩
    · exact h.ids p q x y hp' hq' hxy
    · exact absurd hxy (hfresh x (deref_mem hp'))
    · exact absurd hxy.symm (hfresh y (deref_mem hq'))
    · rfl

/-- The client a pointer of the by-user index leads to has the identifier of no other
allocated client. -/
theorem Inv.key_of_id {um : GoMap Str (GoMap ID Ptr)} {cm : GoMap ID Ptr} {heap : List Client}
    (h : Inv um cm heap) {p : Ptr} {c : Client} (hd : deref heap p = some c)
    {e : Str × GoMap ID Ptr} (he : e ∈ um) {f : ID × Ptr} (hf : f ∈ e.2)
    (hid : c.connectionID = f.1) : f.2 = p ∧ e.1 = c.userKey := by
  obtain ⟨c0, hc0, hk, hi, _⟩ := h.filed e he f hf
  have hp : p = f.2 := h.ids p f.2 c c0 hd hc0 (hid.trans hi.symm)
  subst hp
  rw [hd] at hc0
  cases hc0
  exact ⟨rfl, hk.symm⟩

theorem Inv.add {um : GoMap Str (GoMap ID Ptr)} {cm : GoMap ID Ptr} {heap : List Client}
    (h : Inv um cm heap) {p : Ptr} {c : Client} (hd : deref heap p = some c)
    (ho : c.send.closed = false) (arr : GoMap ID Ptr)
    (harr : um.get c.userKey = some arr ∨ arr = []) :
    Inv (um.set c.userKey (arr.set c.connectionID p)) (cm.set c.connectionID p) heap := by
  have hn : (arr.map Prod.fst).Nodup := by
    rcases harr with hs | rfl
    · exact h.innerKeys _ (GoMap.get_some_mem hs)
    · simp
  have hfiled : ∀ f ∈ arr, ∃ c0, deref heap f.2 = some c0 ∧ c0.userKey = c.userKey
      ∧ c0.connectionID = f.1 ∧ c0.send.closed = false := by
    intro f hf
    rcases harr with hs | rfl
    · exact h.filed _ (GoMap.get_some_mem hs) f hf
    · simp at hf
  have hboth : ∀ f ∈ arr, cm.get f.1 = some f.2 := by
    intro f hf
    rcases harr with hs | rfl
    · exact h.both _ (GoMap.get_some_mem hs) f hf
    · simp at hf
  have hfiled' : ∀ e ∈ um.set c.userKey (arr.set c.connectionID p), ∀ f ∈ e.2,
      (∃ c0, deref heap f.2 = some c0 ∧ c0.userKey = e.1
        ∧ c0.connectionID = f.1 ∧ c0.send.closed = false)
      ∧ (f.1 ≠ c.connectionID → cm.get f.1 = some f.2) := by
    intro e he f hf
    rcases GoMap.mem_set h.userKeys he with rfl | ⟨he', _⟩
    · rcases GoMap.mem_set hn hf with rfl | ⟨hf', _⟩
      · exact ⟨⟨c, hd, rfl, rfl, ho⟩, fun hne => absurd rfl hne⟩
      · exact ⟨hfiled f hf', fun _ => hboth f hf'⟩
    · exact ⟨h.filed e he' f hf, fun _ => h.both e he' f hf⟩
  refine ⟨GoMap.keys_set_nodup h.userKeys _ _, ?_, fun e he f hf => (hfiled' e he f hf).1, ?_,
    h.ids⟩
  · intro e he
    rcases GoMap.mem_set h.userKeys he with rfl | ⟨he', _⟩
    · exact GoMap.keys_set_nodup hn _ _
    · exact h.innerKeys e he'
  · intro e he f hf
    rw [GoMap.get_set]
    obtain ⟨⟨c0, hc0, _, hi, _⟩, hb⟩ := hfiled' e he f hf
    by_cases hid : c.connectionID = f.1
    · have hp : p = f.2 := h.ids p f.2 c c0 hd hc0 (hid.trans hi.symm)
      simp [hid, hp]
    · simp only [hid, if_false]
      exact hb (fun hne => hid hne.symm)

theorem Inv.remove {um : GoMap Str (GoMap ID Ptr)} {cm : GoMap ID Ptr} {heap : List Client}
    (h : Inv um cm heap) {p : Ptr} {c : Client} (hd : deref heap p = some c) :
    Inv (match um.get c.userKey with
          | some arr => um.set c.userKey (arr.delete c.connectionID)
          | none => um)
        (cm.delete c.connectionID) heap := by
  cases hg : um.get c.userKey with
  | none =>
    refine ⟨h.userKeys, h.innerKeys, h.filed, ?_, h.ids⟩
    intro e he f hf
    rw [GoMap.get_delete]
    by_cases hid : c.connectionID = f.1
    · have hk := (h.key_of_id hd he hf hid).2
      have : um.get e.1 = some e.2 := GoMap.get_of_mem h.userKeys he
      rw [hk, hg] at this
      cases this
    · simp only [hid, if_false]
      exact h.both e he f hf
  | some arr =>
    have harr : (c.userKey, arr) ∈ um := GoMap.get_some_mem hg
    refine ⟨GoMap.keys_set_nodup h.userKeys _ _, ?_, ?_, ?_, h.ids⟩
    · intro e he
      rcases GoMap.mem_set h.userKeys he with rfl | ⟨he', _⟩
      · exact GoMap.keys_delete_nodup (h.innerKeys _ harr) _
      · exact h.innerKeys e he'
    · intro e he f hf
      rcases GoMap.mem_set h.userKeys he with rfl | ⟨he', _⟩
      · exact h.filed _ harr f (GoMap.mem_delete hf).1
      · exact h.filed e he' f hf
    · intro e he f hf
      rw [GoMap.get_delete]
      rcases GoMap.mem_set h.userKeys he with rfl | ⟨he', hne⟩
      · have hf' := GoMap.mem_delete hf
        have hid : ¬ c.connectionID = f.1 := fun hid => hf'.2 hid.symm
        simp only [hid, if_false]
        exact h.both _ harr f hf'.1
      · by_cases hid : c.connectionID = f.1
        · exact absurd (h.key_of_id hd he' hf hid).2 hne
        · simp only [hid, if_false]
          exact h.both e he' f hf

/-! ## What the calls return -/

theorem sendAndReturn_ok {s : Streamer} {ts : List (Option Ptr)} {m : payload}
    {heap' : List Client} (h : sendEach s.heap ts m = .ret heap') :
    sendAndReturn s ts m = .ret ({ s with heap := heap' }, none) := by
  simp [sendAndReturn, send, h]

theorem sendAndReturn_ret {s s' : Streamer} {e : Option GoError} {ts : List (Option Ptr)}
    {m : payload} (h : sendAndReturn s ts m = .ret (s', e)) :
    e = none ∧ ∃ heap', sendEach s.heap ts m = .ret heap' ∧ s' = { s with heap := heap' } := by
  cases hs : sendEach s.heap ts m with
  | ret heap' =>
    rw [sendAndReturn_ok hs] at h
    cases h
    exact ⟨rfl, heap', rfl, rfl⟩
  | panic e => simp [sendAndReturn, send, hs] at h
  | blocked => simp [sendAndReturn, send, hs] at h
  | spins => simp [sendAndReturn, send, hs] at h

/-- A fan-out call that returns has changed nothing but the contents of outboxes. -/
theorem fanout_frame {s s' : Streamer} {e : Option GoError} {ts : List (Option Ptr)}
    {m : payload}
    (h : (if s.stopped then Outcome.ret (s, some GoError.ErrStreamerStopped)
          else sendAndReturn s ts m) = .ret (s', e)) :
    s'.userMap = s.userMap ∧ s'.clientMap = s.clientMap ∧ s'.stopped = s.stopped
      ∧ SameShape s.heap s'.heap := by
  by_cases hst : s.stopped = true
  · rw [if_pos hst] at h
    cases h
    exact ⟨rfl, rfl, rfl, SameShape.reflShape _⟩
  · rw [if_neg hst] at h
    obtain ⟨_, heap', hs, rfl⟩ := sendAndReturn_ret h
    exact ⟨rfl, rfl, rfl, sendEach_sameShape hs⟩

theorem addClient_running {s : Streamer} {p : Ptr} {c : Client} (hrun : s.stopped = false)
    (hd : deref s.heap p = some c) :
    addClient s p
      = .ret ({ s with
                userMap := s.userMap.set c.userKey
                  (((s.userMap.get c.userKey).getD []).set c.connectionID p),
                clientMap := s.clientMap.set c.connectionID p }, none) := by
  unfold addClient
  rw [if_neg (by simp [hrun])]
  dsimp only
  rw [hd]
  cases hg : s.userMap.get c.userKey <;> simp [hg]

theorem NewClient_running (s : Streamer) (hcap : s.options.SendChanBufferSize ≤ maxChanCap)
    (hrun : s.stopped = false) (userKey : Str) (id : ID) :
    NewClient s userKey id
      = .ret ({ s with
                heap := s.heap ++ [newClient s userKey id],
                userMap := s.userMap.set userKey
                  (((s.userMap.get userKey).getD []).set id s.heap.length),
                clientMap := s.clientMap.set id s.heap.length },
              some s.heap.length, none) := by
  have hd : deref (s.heap ++ [newClient s userKey id]) s.heap.length
      = some (newClient s userKey id) := List.getElem?_concat_length _ _
  have hadd := @addClient_running { s with heap := s.heap ++ [newClient s userKey id] }
    s.heap.length (newClient s userKey id) hrun hd
  unfold NewClient
  rw [if_neg (Nat.not_lt.mpr hcap)]
  dsimp only
  simp only [newClient] at hadd ⊢
  rw [hadd]

theorem NewClient_ret_running {s s' : Streamer} {userKey : Str} {id : ID} {p : Option Ptr}
    {e : Option GoError} (hrun : s.stopped = false)
    (h : NewClient s userKey id = .ret (s', p, e)) :
    s' = stateWith s userKey id ∧ p = some s.heap.length ∧ e = none := by
  have hcap := NewClient_ret_cap h
  rw [NewClient_running s hcap hrun] at h
  cases h
  exact ⟨rfl, rfl, rfl⟩

theorem removeClient_ret {s s' : Streamer} {p : Ptr} {e : Option GoError}
    (h : removeClient s p = .ret (s', e)) :
    ∃ c, deref s.heap p = some c
      ∧ s' = { s with
               userMap := (match s.userMap.get c.userKey with
                 | some arr => s.userMap.set c.userKey (arr.delete c.connectionID)
                 | none => s.userMap),
               clientMap := s.clientMap.delete c.connectionID } := by
  unfold removeClient at h
  cases hd : deref s.heap p with
  | none => simp [hd] at h
  | some c =>
    rw [hd] at h
    dsimp only at h
    cases h
    exact ⟨c, rfl, rfl⟩

theorem drain_sameShape {heap heap' : List Client} {p : Ptr} (h : drain heap p = .ret heap') :
    SameShape heap heap' := by
  unfold drain at h
  cases hd : deref heap p with
  | none => simp [hd] at h
  | some c =>
    rw [hd] at h
    dsimp only at h
    by_cases ho : c.send.closed = true
    · rw [if_pos ho] at h
      cases h
    · rw [if_neg ho] at h
      cases h
      exact sameShape_set { c with send := { c.send with buf := [] } } hd rfl rfl rfl rfl

/-- The state part of a returned outcome. -/
theorem Outcome.state_ret {α β : Type} {f : α → β} {o : Outcome α} {b : β}
    (h : o.state f = .ret b) : ∃ a, o = .ret a ∧ f a = b := by
  cases o with
  | ret a =>
    simp only [Outcome.state, Outcome.ret.injEq] at h
    exact ⟨a, rfl, h⟩
  | panic e => cases h
  | blocked => cases h
  | spins => cases h

/-- Every call that returns keeps the invariant of the registry. -/
theorem call_inv {s s' : Streamer} (c : Call) (h : Inv s.userMap s.clientMap s.heap)
    (hf : c.fresh s) (hc : call s c = .ret s') : Inv s'.userMap s'.clientMap s'.heap := by
  cases c with
  | Start =>
    simp only [call, Outcome.ret.injEq] at hc
    subst hc
    exact h
  | Stop =>
    simp only [call] at hc
    obtain ⟨hu, hcm, _, _, _, hcl⟩ := Stop_ret hc
    rw [hu, hcm]
    exact h.stop (closeEach_sameIds hcl)
  | NewClient userKey id =>
    simp only [call] at hc
    have hcap : s.options.SendChanBufferSize ≤ maxChanCap := by
      obtain ⟨r₀, hr₀, _⟩ := Outcome.state_ret hc
      exact NewClient_ret_cap hr₀
    by_cases hst : s.stopped = true
    · rw [NewClient_stopped s hcap hst] at hc
      simp only [Outcome.state, Outcome.ret.injEq] at hc
      subst hc
      exact h.alloc _ hf
    · have hrun : s.stopped = false := by simpa using hst
      rw [NewClient_running s hcap hrun] at hc
      simp only [Outcome.state, Outcome.ret.injEq] at hc
      subst hc
      have ha := h.alloc (newClient s userKey id) hf
      have hd : deref (s.heap ++ [newClient s userKey id]) s.heap.length
          = some (newClient s userKey id) := List.getElem?_concat_length _ _
      exact ha.add hd rfl ((s.userMap.get userKey).getD []) (by
        cases hg : s.userMap.get userKey
        · right; rfl
        · left; simp [newClient, hg])
  | removeClient p =>
    obtain ⟨r, hr, rfl⟩ := Outcome.state_ret hc
    obtain ⟨c, hd, hs⟩ := removeClient_ret hr
    rw [hs]
    exact h.remove hd
  | Broadcast event data =>
    obtain ⟨r, hr, rfl⟩ := Outcome.state_ret hc
    obtain ⟨hu, hcm, _, hsh⟩ := fanout_frame hr
    rw [hu, hcm]
    exact h.sameShape hsh
  | Multicast event data users =>
    obtain ⟨r, hr, rfl⟩ := Outcome.state_ret hc
    obtain ⟨hu, hcm, _, hsh⟩ := fanout_frame hr
    rw [hu, hcm]
    exact h.sameShape hsh
  | Unicast event data clientID =>
    obtain ⟨r, hr, rfl⟩ := Outcome.state_ret hc
    obtain ⟨hu, hcm, _, hsh⟩ := fanout_frame hr
    rw [hu, hcm]
    exact h.sameShape hsh
  | Dispatch client ev =>
    obtain ⟨r, hr, rfl⟩ := Outcome.state_ret hc
    cases ev with
    | done =>
      simp only [Dispatcher.step] at hr
      cases hrm : removeClient s client with
      | ret r' =>
        rw [hrm] at hr
        dsimp only at hr
        obtain ⟨c, hd, hs⟩ := removeClient_ret hrm
        have hinv := h.remove hd
        cases hdr : drain r'.1.heap client with
        | ret heap' =>
          rw [hdr] at hr
          cases hr
          rw [hs] at hdr
          rw [hs]
          exact hinv.sameShape (drain_sameShape hdr)
        | panic e => rw [hdr] at hr; cases hr
        | blocked => rw [hdr] at hr; cases hr
        | spins => rw [hdr] at hr; cases hr
      | panic e => rw [hrm] at hr; cases hr
      | blocked => rw [hrm] at hr; cases hr
      | spins => rw [hrm] at hr; cases hr
    | recv =>
      simp only [Dispatcher.step] at hr
      cases hd : deref s.heap client with
      | none => simp [hd] at hr
      | some c =>
        rw [hd] at hr
        dsimp only at hr
        cases hb : c.send.buf with
        | nil =>
          rw [hb] at hr
          dsimp only at hr
          by_cases ho : c.send.closed = true
          · rw [if_pos ho] at hr
            cases hr
            exact h
          · rw [if_neg ho] at hr
            cases hr
        | cons m rest =>
          rw [hb] at hr
          cases hr
          exact h.sameShape
            (sameShape_set { c with send := { c.send with buf := rest } } hd rfl rfl rfl rfl)
    | tick =>
      simp only [Dispatcher.step, Outcome.ret.injEq] at hr
      subst hr
      exact h

/-- Every reachable state satisfies the invariant of the registry. -/
theorem Reachable.inv {s : Streamer} (h : Reachable s) : Inv s.userMap s.clientMap s.heap := by
  induction h with
  | init options => exact Inv.init
  | step c _ hf hc ih => exact call_inv c ih hf hc

/-! ## The targets of the fan-out calls -/

theorem foldl_targets (arr : GoMap ID Ptr) (acc : List (Option Ptr)) :
    arr.foldl (fun targets c => targets ++ [some c.2]) acc
      = acc ++ (arr.map (·.2)).map some := by
  induction arr generalizing acc with
  | nil => simp
  | cons f arr ih => simp [List.foldl_cons, ih]

theorem foldl_userMap_targets (um : GoMap Str (GoMap ID Ptr)) (acc : List (Option Ptr)) :
    um.foldl (fun targets v => v.2.foldl (fun targets c => targets ++ [some c.2]) targets) acc
      = acc ++ (userClients um).map some := by
  induction um generalizing acc with
  | nil => simp [userClients]
  | cons e um ih =>
    rw [List.foldl_cons, ih, foldl_targets]
    simp [userClients, List.flatMap_cons]

theorem broadcastTargets_eq (s : Streamer) :
    broadcastTargets s = (userClients s.userMap).map some := by
  simp [broadcastTargets, foldl_userMap_targets]

theorem mem_userClients {um : GoMap Str (GoMap ID Ptr)} {p : Ptr} :
    p ∈ userClients um ↔ ∃ e ∈ um, ∃ f ∈ e.2, f.2 = p := by
  simp [userClients, List.mem_flatMap]

theorem mem_clientsOf {um : GoMap Str (GoMap ID Ptr)} {k : Str} {p : Ptr} :
    p ∈ clientsOf um k ↔ ∃ arr, um.get k = some arr ∧ ∃ f ∈ arr, f.2 = p := by
  unfold clientsOf
  cases hg : um.get k with
  | none => simp
  | some arr => simp

theorem Inv.inner_inj {um : GoMap Str (GoMap ID Ptr)} {cm : GoMap ID Ptr} {heap : List Client}
    (h : Inv um cm heap) {e : Str × GoMap ID Ptr} (he : e ∈ um) :
    ∀ f ∈ e.2, ∀ g ∈ e.2, f.2 = g.2 → f = g := by
  intro f hf g hg hfg
  obtain ⟨c, hc, _, hi, _⟩ := h.filed e he f hf
  obtain ⟨d, hd, _, hj, _⟩ := h.filed e he g hg
  rw [hfg, hd] at hc
  cases hc
  exact Prod.ext (hi.symm.trans hj) hfg

theorem Inv.inner_nodup {um : GoMap Str (GoMap ID Ptr)} {cm : GoMap ID Ptr} {heap : List Client}
    (h : Inv um cm heap) {e : Str × GoMap ID Ptr} (he : e ∈ um) : (e.2.map (·.2)).Nodup :=
  List.Nodup.map_on (h.inner_inj he) (List.Nodup.of_map _ (h.innerKeys e he))

theorem Inv.userClients_nodup {um : GoMap Str (GoMap ID Ptr)} {cm : GoMap ID Ptr}
    {heap : List Client} (h : Inv um cm heap) : (userClients um).Nodup := by
  unfold userClients
  rw [List.nodup_flatMap]
  refine ⟨fun e he => h.inner_nodup he, ?_⟩
  have hk : List.Pairwise (fun a b : Str × GoMap ID Ptr => a.1 ≠ b.1) um :=
    List.pairwise_map.mp h.userKeys
  refine hk.imp_of_mem ?_
  intro a b ha hb hab p hpa hpb
  simp only [List.mem_map] at hpa hpb
  obtain ⟨f, hf, rfl⟩ := hpa
  obtain ⟨g, hg, hgf⟩ := hpb
  obtain ⟨c, hc, hck, _⟩ := h.filed a ha f hf
  obtain ⟨d, hd, hdk, _⟩ := h.filed b hb g hg
  rw [hgf, hc] at hd
  cases hd
  exact hab (hck.symm.trans hdk)

theorem Inv.clientsOf_nodup {um : GoMap Str (GoMap ID Ptr)} {cm : GoMap ID Ptr}
    {heap : List Client} (h : Inv um cm heap) (k : Str) : (clientsOf um k).Nodup := by
  unfold clientsOf
  cases hg : um.get k with
  | none => simp
  | some arr => exact h.inner_nodup (GoMap.get_some_mem hg)

/-- Under the invariant the clients stored in the by-user index are the clients
present in it under their own key and identifier, and they are registered. -/
theorem Inv.mem_userClients_iff {s : Streamer} (h : Inv s.userMap s.clientMap s.heap) (p : Ptr) :
    p ∈ userClients s.userMap ↔ inUserMap s p = true := by
  rw [mem_userClients]
  constructor
  · rintro ⟨e, he, f, hf, rfl⟩
    obtain ⟨c, hc, hk, hi, _⟩ := h.filed e he f hf
    have h1 : s.userMap.get e.1 = some e.2 := GoMap.get_of_mem h.userKeys he
    have h2 : e.2.get f.1 = some f.2 := GoMap.get_of_mem (h.innerKeys e he) hf
    simp [inUserMap, hc, hk, hi, h1, h2]
  · intro hin
    unfold inUserMap at hin
    cases hc : deref s.heap p with
    | none => simp [hc] at hin
    | some c =>
      rw [hc] at hin
      dsimp only at hin
      cases hg : s.userMap.get c.userKey with
      | none => simp [hg] at hin
      | some arr =>
        simp only [hg, Option.some_bind, beq_iff_eq] at hin
        exact ⟨_, GoMap.get_some_mem hg, _, GoMap.get_some_mem hin, rfl⟩

theorem Inv.registered_eq {s : Streamer} (h : Inv s.userMap s.clientMap s.heap) (p : Ptr) :
    registered s p = inUserMap s p := by
  unfold registered
  cases hin : inUserMap s p with
  | false => simp
  | true =>
    obtain ⟨e, he, f, hf, rfl⟩ := mem_userClients.mp ((h.mem_userClients_iff p).mpr hin)
    obtain ⟨c, hc, _, hi, _⟩ := h.filed e he f hf
    have := h.both e he f hf
    simp [inClientMap, hc, hi, this]

theorem Inv.open_of_inUserMap {s : Streamer} (h : Inv s.userMap s.clientMap s.heap) {p : Ptr}
    {c : Client} (hc : deref s.heap p = some c) (hin : inUserMap s p = true) :
    c.send.closed = false := by
  obtain ⟨e, he, f, hf, rfl⟩ := mem_userClients.mp ((h.mem_userClients_iff p).mpr hin)
  obtain ⟨c', hc', _, _, ho⟩ := h.filed e he f hf
  rw [hc] at hc'
  cases hc'
  exact ho

theorem Inv.mem_clientsOf_iff {s : Streamer} (h : Inv s.userMap s.clientMap s.heap) (k : Str)
    (p : Ptr) :
    p ∈ clientsOf s.userMap k
      ↔ inUserMap s p = true ∧ ∃ c, deref s.heap p = some c ∧ c.userKey = k := by
  rw [mem_clientsOf]
  constructor
  · rintro ⟨arr, hg, f, hf, rfl⟩
    have he := GoMap.get_some_mem hg
    obtain ⟨c, hc, hk, _⟩ := h.filed _ he f hf
    exact ⟨(h.mem_userClients_iff _).mp (mem_userClients.mpr ⟨_, he, f, hf, rfl⟩), c, hc, hk⟩
  · rintro ⟨hin, c, hc, rfl⟩
    obtain ⟨e, he, f, hf, rfl⟩ := mem_userClients.mp ((h.mem_userClients_iff p).mpr hin)
    obtain ⟨c', hc', hk, _⟩ := h.filed e he f hf
    rw [hc] at hc'
    cases hc'
    exact ⟨e.2, by rw [hk]; exact GoMap.get_of_mem h.userKeys he, f, hf, rfl⟩

/-- Sending to distinct clients whose outboxes are open and not full returns, and has
queued the payload once at each of them and nowhere else. -/
theorem sendEach_ok (m : payload) (ps : List Ptr) (heap : List Client) (hn : ps.Nodup)
    (hok : ∀ p ∈ ps, ∃ c, deref heap p = some c ∧ c.send.closed = false ∧ hasFreeSpace c) :
    ∃ heap', sendEach heap (ps.map some) m = .ret heap' ∧ heap'.length = heap.length
      ∧ ∀ q c, deref heap q = some c →
          deref heap' q = some (if q ∈ ps then enqueue c m else c) := by
  induction ps generalizing heap with
  | nil => exact ⟨heap, rfl, rfl, fun q c hq => by simpa using hq⟩
  | cons p ps ih =>
    obtain ⟨c, hc, ho, hf⟩ := hok p (List.mem_cons_self _ _)
    have hp : p ∉ ps := (List.nodup_cons.mp hn).1
    have hok' : ∀ q ∈ ps, ∃ d, deref (heap.set p (enqueue c m)) q = some d
        ∧ d.send.closed = false ∧ hasFreeSpace d := by
      intro q hq
      have hne : p ≠ q := fun hpq => hp (hpq ▸ hq)
      rw [deref_set_ne _ _ hne]
      exact hok q (List.mem_cons_of_mem _ hq)
    obtain ⟨heap', hs, hl, hall⟩ := ih (heap.set p (enqueue c m)) (List.nodup_cons.mp hn).2 hok'
    refine ⟨heap', ?_, by rw [hl, List.length_set], ?_⟩
    · simp only [List.map_cons, sendEach]
      rw [chanSend_ok m hc ho hf]
      exact hs
    · intro q d hq
      by_cases hpq : p = q
      · subst hpq
        rw [hc] at hq
        cases hq
        have := hall p (enqueue c m) (deref_set_self _ hc)
        simpa [hp] using this
      · have := hall q d (by rw [deref_set_ne _ _ hpq]; exact hq)
        have hqp : ¬ q = p := fun hq' => hpq hq'.symm
        simpa [hqp] using this

/-! ## Delivery -/

theorem oneClient_run :
    run (NewStreamer NewDefaultOptions) [.Start, .NewClient "k".toList 1] = .ret oneClient := rfl

theorem twoClients_run :
    run (NewStreamer NewDefaultOptions)
      [.Start, .NewClient "k".toList 1, .NewClient "k".toList 2] = .ret twoClients := rfl

theorem oneClient_reachable : Reachable oneClient :=
  Reachable.step (.NewClient "k".toList 1)
    (Reachable.step .Start (Reachable.init NewDefaultOptions) trivial rfl)
    (by intro cl hcl; simp [Start, NewStreamer] at hcl) rfl

theorem twoClients_reachable : Reachable twoClients :=
  Reachable.step (.NewClient "k".toList 2) oneClient_reachable
    (by intro cl hcl; simp [oneClient] at hcl; subst hcl; decide) rfl

theorem registered_inClientMap {s : Streamer} {p : Ptr} {c : Client} (hc : deref s.heap p = some c)
    (hreg : registered s p = true) :
    inUserMap s p = true ∧ s.clientMap.get c.connectionID = some p := by
  simp only [registered, Bool.and_eq_true] at hreg
  refine ⟨hreg.1, ?_⟩
  have := hreg.2
  simp only [inClientMap, hc, beq_iff_eq] at this
  exact this

/-- C4: on a running streamer, for every registered connection whose outbox has free
space, `Unicast` to its identifier returns no error and the state it leaves differs
from the state before only at that connection, whose outbox has the one message
`makePayload(event, data)` appended; every other connection is as before. -/
theorem C4_unicast_delivers_to_one (s : Streamer) (hr : Reachable s) (hrun : s.stopped = false)
    (p : Ptr) (c : Client) (hc : deref s.heap p = some c) (hreg : registered s p = true)
    (hfree : hasFreeSpace c) (event data : Str) :
    Unicast s event data c.connectionID
        = .ret ({ s with heap := s.heap.set p (enqueue c (makePayload event data)) }, none)
      ∧ deref (s.heap.set p (enqueue c (makePayload event data))) p
          = some (enqueue c (makePayload event data))
      ∧ (enqueue c (makePayload event data)).send.buf = c.send.buf ++ [makePayload event data]
      ∧ ∀ q, q ≠ p →
          deref (s.heap.set p (enqueue c (makePayload event data))) q = deref s.heap q := by
  obtain ⟨hin, hcm⟩ := registered_inClientMap hc hreg
  have ho := hr.inv.open_of_inUserMap hc hin
  have ht : unicastTargets s c.connectionID = [some p] := by
    simp [unicastTargets, hcm]
  have hs : sendEach s.heap [some p] (makePayload event data)
      = .ret (s.heap.set p (enqueue c (makePayload event data))) := by
    simp only [sendEach]
    rw [chanSend_ok _ hc ho hfree]
  refine ⟨?_, deref_set_self _ hc, rfl, fun q hq => deref_set_ne _ _ (Ne.symm hq)⟩
  unfold Unicast
  rw [if_neg (by simp [hrun]), ht]
  exact sendAndReturn_ok hs

/-- C4 at the streamer with one registered client, identifier 1. -/
theorem C4_unicast_delivers_to_one_witness :
    Unicast oneClient "e".toList "a\nb".toList 1
        = .ret ({ oneClient with
                  heap := [{ userKey := "k".toList, connectionID := 1,
                             send := { buf := [{ event := "e".toList,
                                                 data := ["a".toList, "b".toList] }],
                                       cap := 100, closed := false } }] }, none) :=
  (C4_unicast_delivers_to_one oneClient oneClient_reachable rfl 0
    { userKey := "k".toList, connectionID := 1,
      send := { buf := [], cap := 100, closed := false } }
    rfl (by decide) (by decide) "e".toList "a\nb".toList).1

/-- C5: on a running streamer in which the outbox of every registered connection has
free space, `Broadcast` returns no error and leaves a state that differs from the state
before only in the store of clients: every connection registered at the call has the
one message `makePayload(event, data)` appended to its outbox and every other client is
as before; the connection that a `NewClient` after it returns has an empty outbox, and
`NewClient` does return one when `SendChanBufferSize` is a capacity `make` accepts. -/
theorem C5_broadcast_delivers_to_registered (s : Streamer) (hr : Reachable s)
    (hrun : s.stopped = false)
    (hfree : ∀ p c, deref s.heap p = some c → registered s p = true → hasFreeSpace c)
    (event data : Str) :
    ∃ heap', Broadcast s event data = .ret ({ s with heap := heap' }, none)
      ∧ heap'.length = s.heap.length
      ∧ (∀ p c, deref s.heap p = some c →
          deref heap' p
            = some (if registered s p = true then enqueue c (makePayload event data) else c))
      ∧ ∀ userKey id,
          (s.options.SendChanBufferSize ≤ maxChanCap →
            ∃ s'', NewClient { s with heap := heap' } userKey id
              = .ret (s'', some heap'.length, none))
          ∧ ∀ s'' p e, NewClient { s with heap := heap' } userKey id = .ret (s'', p, e) →
              p = some heap'.length ∧ e = none
                ∧ deref s''.heap heap'.length = some (newClient s userKey id)
                ∧ (newClient s userKey id).send.buf = [] := by
  have hinv := hr.inv
  have hok : ∀ p ∈ userClients s.userMap,
      ∃ c, deref s.heap p = some c ∧ c.send.closed = false ∧ hasFreeSpace c := by
    intro p hp
    have hin := (hinv.mem_userClients_iff p).mp hp
    obtain ⟨e, he, f, hf, rfl⟩ := mem_userClients.mp hp
    obtain ⟨c, hc, _⟩ := hinv.filed e he f hf
    exact ⟨c, hc, hinv.open_of_inUserMap hc hin,
      hfree _ c hc (by rw [hinv.registered_eq]; exact hin)⟩
  obtain ⟨heap', hs, hl, hall⟩ :=
    sendEach_ok (makePayload event data) _ s.heap hinv.userClients_nodup hok
  refine ⟨heap', ?_, hl, ?_, ?_⟩
  · unfold Broadcast
    rw [if_neg (by simp [hrun]), broadcastTargets_eq]
    exact sendAndReturn_ok hs
  · intro p c hc
    rw [hall p c hc]
    have hiff : p ∈ userClients s.userMap ↔ registered s p = true := by
      rw [hinv.registered_eq]
      exact hinv.mem_userClients_iff p
    by_cases hp : p ∈ userClients s.userMap
    · rw [if_pos hp, if_pos (hiff.mp hp)]
    · rw [if_neg hp, if_neg (fun h => hp (hiff.mpr h))]
  · intro userKey id
    refine ⟨fun hcap => ⟨_, NewClient_running { s with heap := heap' } hcap hrun userKey id⟩,
      ?_⟩
    intro s'' p e hnew
    have hrun' : ({ s with heap := heap' } : Streamer).stopped = false := hrun
    obtain ⟨rfl, rfl, rfl⟩ := NewClient_ret_running hrun' hnew
    exact ⟨rfl, rfl, List.getElem?_concat_length _ _, rfl⟩

/-- C5 at the streamer with two registered clients: both outboxes receive the message,
and the client of a later `NewClient` has an empty outbox. -/
theorem C5_broadcast_delivers_to_registered_witness :
    Broadcast twoClients "e".toList "d".toList
        = .ret ({ twoClients with
                  heap := [{ userKey := "k".toList, connectionID := 1,
                             send := { buf := [{ event := "e".toList, data := ["d".toList] }],
                                       cap := 100, closed := false } },
                           { userKey := "k".toList, connectionID := 2,
                             send := { buf := [{ event := "e".toList, data := ["d".toList] }],
                                       cap := 100, closed := false } }] }, none)
      ∧ ∃ heap', Broadcast twoClients "e".toList "d".toList
          = .ret ({ twoClients with heap := heap' }, none)
        ∧ heap'.length = twoClients.heap.length
        ∧ (∀ p c, deref twoClients.heap p = some c →
            deref heap' p
              = some (if registered twoClients p = true
                  then enqueue c (makePayload "e".toList "d".toList) else c))
        ∧ ∀ userKey id,
            (twoClients.options.SendChanBufferSize ≤ maxChanCap →
              ∃ s'', NewClient { twoClients with heap := heap' } userKey id
                = .ret (s'', some heap'.length, none))
            ∧ ∀ s'' p e,
                NewClient { twoClients with heap := heap' } userKey id = .ret (s'', p, e) →
                p = some heap'.length ∧ e = none
                  ∧ deref s''.heap heap'.length = some (newClient twoClients userKey id)
                  ∧ (newClient twoClients userKey id).send.buf = [] :=
  ⟨rfl, C5_broadcast_delivers_to_registered twoClients twoClients_reachable rfl
    (by
      intro p c hc _
      rcases p with _ | _ | p
      · simp only [twoClients, deref, List.getElem?_cons_zero, Option.some.injEq] at hc
        subst hc
        decide
      · simp only [twoClients, deref, List.getElem?_cons_succ, List.getElem?_cons_zero,
          Option.some.injEq] at hc
        subst hc
        decide
      · simp [twoClients, deref] at hc)
    "e".toList "d".toList⟩

/-! ## `Multicast` and repeated user keys -/

theorem mem_distinctFrom {seen users : List Str} {k : Str} :
    k ∈ distinctFrom seen users ↔ k ∈ users ∧ k ∉ seen := by
  induction users generalizing seen with
  | nil => simp [distinctFrom]
  | cons u us ih =>
    simp only [distinctFrom]
    by_cases hu : u ∈ seen
    · rw [if_pos hu, ih]
      constructor
      · rintro ⟨h1, h2⟩
        exact ⟨List.mem_cons_of_mem _ h1, h2⟩
      · rintro ⟨h1, h2⟩
        rcases List.mem_cons.mp h1 with rfl | h1
        · exact absurd hu h2
        · exact ⟨h1, h2⟩
    · rw [if_neg hu, List.mem_cons, ih]
      constructor
      · rintro (rfl | ⟨h1, h2⟩)
        · exact ⟨List.mem_cons_self _ _, hu⟩
        · exact ⟨List.mem_cons_of_mem _ h1, fun h => h2 (List.mem_cons_of_mem _ h)⟩
      · rintro ⟨h1, h2⟩
        by_cases hk : k = u
        · exact Or.inl hk
        · refine Or.inr ⟨(List.mem_cons.mp h1).resolve_left hk, ?_⟩
          intro h
          rcases List.mem_cons.mp h with h | h
          · exact hk h
          · exact h2 h

theorem distinctFrom_nodup (seen users : List Str) : (distinctFrom seen users).Nodup := by
  induction users generalizing seen with
  | nil => simp [distinctFrom]
  | cons u us ih =>
    simp only [distinctFrom]
    by_cases hu : u ∈ seen
    · rw [if_pos hu]
      exact ih seen
    · rw [if_neg hu, List.nodup_cons]
      refine ⟨fun h => ?_, ih _⟩
      exact (mem_distinctFrom.mp h).2 (List.mem_cons_self _ _)

theorem distinctFrom_of_nodup {seen l : List Str} (hn : l.Nodup) (hd : ∀ k ∈ l, k ∉ seen) :
    distinctFrom seen l = l := by
  induction l generalizing seen with
  | nil => rfl
  | cons u us ih =>
    have hu : u ∉ seen := hd u (List.mem_cons_self _ _)
    simp only [distinctFrom]
    rw [if_neg hu, ih (List.nodup_cons.mp hn).2]
    intro k hk hks
    rcases List.mem_cons.mp hks with rfl | hks
    · exact (List.nodup_cons.mp hn).1 hk
    · exact hd k (List.mem_cons_of_mem _ hk) hks

theorem distinct_distinct (users : List Str) : distinct (distinct users) = distinct users :=
  distinctFrom_of_nodup (distinctFrom_nodup [] users) (fun _ _ h => by simp at h)

theorem mem_distinct {users : List Str} {k : Str} : k ∈ distinct users ↔ k ∈ users := by
  simp [distinct, mem_distinctFrom]

/-- The loop of `Multicast` over `users`, started with targets `t` and a map `done`
that marks the keys of `seen`: it appends the clients of each new key once. -/
theorem multicast_fold (s : Streamer) (users : List Str) (t : List (Option Ptr))
    (done : GoMap Str Bool) (seen : List Str)
    (hdone : ∀ k, (done.get k).getD false = true ↔ k ∈ seen) :
    (users.foldl (multicastStep s) (t, done)).1
      = t ++ ((distinctFrom seen users).flatMap (clientsOf s.userMap)).map some := by
  induction users generalizing t done seen with
  | nil => simp [distinctFrom]
  | cons u us ih =>
    rw [List.foldl_cons]
    simp only [distinctFrom]
    by_cases hu : u ∈ seen
    · have hd : (done.get u).getD false = true := (hdone u).mpr hu
      rw [if_pos hu]
      have hstep : multicastStep s (t, done) u = (t, done) := by
        simp [multicastStep, hd]
      rw [hstep]
      exact ih t done seen hdone
    · have hd : ¬ (done.get u).getD false = true := fun h => hu ((hdone u).mp h)
      rw [if_neg hu]
      have hstep : multicastStep s (t, done) u
          = (t ++ (clientsOf s.userMap u).map some, done.set u true) := by
        unfold multicastStep
        rw [if_neg hd]
        dsimp only
        cases hg : s.userMap.get u with
        | none => simp [clientsOf, hg]
        | some arr => simp [clientsOf, hg, foldl_targets]
      rw [hstep, ih _ _ (u :: seen)]
      · simp [List.flatMap_cons]
      · intro k
        rw [GoMap.get_set]
        by_cases hk : u = k
        · simp [hk]
        · rw [if_neg hk, hdone k, List.mem_cons]
          constructor
          · exact Or.inr
          · rintro (h | h)
            · exact absurd h.symm hk
            · exact h

theorem multicastTargets_eq (s : Streamer) (users : List Str) :
    multicastTargets s users
      = ((distinct users).flatMap (clientsOf s.userMap)).map some := by
  unfold multicastTargets distinct
  rw [multicast_fold s users [] [] [] (by intro k; simp [GoMap.get])]
  simp

theorem multicastTargets_distinct (s : Streamer) (users : List Str) :
    multicastTargets s (distinct users) = multicastTargets s users := by
  rw [multicastTargets_eq, multicastTargets_eq, distinct_distinct]

theorem Inv.multicast_nodup {s : Streamer} (h : Inv s.userMap s.clientMap s.heap)
    (users : List Str) : ((distinct users).flatMap (clientsOf s.userMap)).Nodup := by
  rw [List.nodup_flatMap]
  refine ⟨fun k _ => h.clientsOf_nodup k, ?_⟩
  have hn : List.Pairwise (fun a b : Str => a ≠ b) (distinct users) :=
    distinctFrom_nodup [] users
  refine hn.imp ?_
  intro a b hab p hpa hpb
  obtain ⟨_, c, hc, hca⟩ := (h.mem_clientsOf_iff a p).mp hpa
  obtain ⟨_, d, hd, hdb⟩ := (h.mem_clientsOf_iff b p).mp hpb
  rw [hc] at hd
  cases hd
  exact hab (hca.symm.trans hdb)

theorem Inv.mem_multicast {s : Streamer} (h : Inv s.userMap s.clientMap s.heap)
    (users : List Str) {p : Ptr} {c : Client} (hc : deref s.heap p = some c) :
    p ∈ (distinct users).flatMap (clientsOf s.userMap)
      ↔ registered s p = true ∧ c.userKey ∈ users := by
  rw [List.mem_flatMap, h.registered_eq]
  constructor
  · rintro ⟨k, hk, hp⟩
    obtain ⟨hin, d, hd, hdk⟩ := (h.mem_clientsOf_iff k p).mp hp
    rw [hc] at hd
    cases hd
    exact ⟨hin, hdk ▸ mem_distinct.mp hk⟩
  · rintro ⟨hin, hk⟩
    exact ⟨c.userKey, mem_distinct.mpr hk, (h.mem_clientsOf_iff _ p).mpr ⟨hin, c, hc, rfl⟩⟩

/-- C6, as amended: on a running streamer, for every list of user keys, with any
repetitions, such that the outbox of every connection registered under a listed key
has free space, `Multicast` returns no error and leaves a state that differs from the
state before only in the store of clients: every connection registered under some key
of the list has exactly one copy of the message appended to its outbox, and every
other client is as before.  For every state, `Multicast` with the list without its
duplicates has the same outcome. -/
theorem C6_multicast_once_per_connection (s : Streamer) (hr : Reachable s)
    (hrun : s.stopped = false) (users : List Str)
    (hfree : ∀ p c, deref s.heap p = some c → registered s p = true → c.userKey ∈ users →
      hasFreeSpace c)
    (event data : Str) :
    (∃ heap', Multicast s event data users = .ret ({ s with heap := heap' }, none)
      ∧ heap'.length = s.heap.length
      ∧ ∀ p c, deref s.heap p = some c →
          deref heap' p
            = some (if registered s p = true ∧ c.userKey ∈ users
                then enqueue c (makePayload event data) else c))
      ∧ ∀ (s₀ : Streamer) (users₀ : List Str),
          Multicast s₀ event data (distinct users₀) = Multicast s₀ event data users₀ := by
  have hinv := hr.inv
  constructor
  · have hok : ∀ p ∈ (distinct users).flatMap (clientsOf s.userMap),
        ∃ c, deref s.heap p = some c ∧ c.send.closed = false ∧ hasFreeSpace c := by
      intro p hp
      obtain ⟨k, _, hpk⟩ := List.mem_flatMap.mp hp
      obtain ⟨hin, c, hc, _⟩ := (hinv.mem_clientsOf_iff k p).mp hpk
      obtain ⟨hreg, hk⟩ := (hinv.mem_multicast users hc).mp hp
      exact ⟨c, hc, hinv.open_of_inUserMap hc hin, hfree p c hc hreg hk⟩
    obtain ⟨heap', hs, hl, hall⟩ :=
      sendEach_ok (makePayload event data) _ s.heap (hinv.multicast_nodup users) hok
    refine ⟨heap', ?_, hl, ?_⟩
    · unfold Multicast
      rw [if_neg (by simp [hrun]), multicastTargets_eq]
      exact sendAndReturn_ok hs
    · intro p c hc
      rw [hall p c hc]
      have hiff := hinv.mem_multicast users hc
      by_cases hp : p ∈ (distinct users).flatMap (clientsOf s.userMap)
      · rw [if_pos hp, if_pos (hiff.mp hp)]
      · rw [if_neg hp, if_neg (fun h => hp (hiff.mpr h))]
  · intro s₀ users₀
    unfold Multicast
    rw [multicastTargets_distinct]

/-- C6, as amended, at the streamer with two clients registered under the key "k" and
the list of keys "k", "k": each of the two outboxes receives exactly one message. -/
theorem C6_multicast_once_per_connection_witness :
    Multicast twoClients "e".toList "d".toList ["k".toList, "k".toList]
        = .ret ({ twoClients with
                  heap := [{ userKey := "k".toList, connectionID := 1,
                             send := { buf := [{ event := "e".toList, data := ["d".toList] }],
                                       cap := 100, closed := false } },
                           { userKey := "k".toList, connectionID := 2,
                             send := { buf := [{ event := "e".toList, data := ["d".toList] }],
                                       cap := 100, closed := false } }] }, none)
      ∧ (∃ heap', Multicast twoClients "e".toList "d".toList ["k".toList, "k".toList]
            = .ret ({ twoClients with heap := heap' }, none)
          ∧ heap'.length = twoClients.heap.length
          ∧ ∀ p c, deref twoClients.heap p = some c →
              deref heap' p
                = some (if registered twoClients p = true ∧ c.userKey ∈ ["k".toList, "k".toList]
                    then enqueue c (makePayload "e".toList "d".toList) else c))
      ∧ Multicast twoClients "e".toList "d".toList (distinct ["k".toList, "k".toList])
          = Multicast twoClients "e".toList "d".toList ["k".toList, "k".toList] :=
  have h := C6_multicast_once_per_connection twoClients twoClients_reachable rfl
    ["k".toList, "k".toList]
    (by
      intro p c hc _ _
      rcases p with _ | _ | p
      · simp only [twoClients, deref, List.getElem?_cons_zero, Option.some.injEq] at hc
        subst hc
        decide
      · simp only [twoClients, deref, List.getElem?_cons_succ, List.getElem?_cons_zero,
          Option.some.injEq] at hc
        subst hc
        decide
      · simp [twoClients, deref] at hc)
    "e".toList "d".toList
  ⟨rfl, h.1, h.2 twoClients ["k".toList, "k".toList]⟩

/-- C6 as stated fails: with outboxes of capacity one, after `Start`, `NewClient` with
key "k" and a first `Multicast` to "k", the streamer is running, the connection is
registered under "k" and its outbox is full; a second `Multicast` to "k" waits on the
full outbox and enqueues nothing. -/
theorem C6_counterexample_full_outbox :
    ∃ s, run (NewStreamer { NoXAccelBuffering := true, SendChanBufferSize := 1,
                            UserAuthenticator := none })
            [.Start, .NewClient "k".toList 1, .Multicast "e".toList "d".toList ["k".toList]]
          = .ret s
      ∧ s.stopped = false ∧ registered s 0 = true
      ∧ (deref s.heap 0).map (fun c => (c.userKey, c.send.buf.length, c.send.cap))
          = some ("k".toList, 1, 1)
      ∧ Multicast s "e".toList "d".toList ["k".toList] = .blocked :=
  ⟨_, rfl, rfl, by decide, rfl, rfl⟩

/-! ## The heartbeat, the JSON variants and the response headers -/

/-- C16: on a heartbeat tick the Dispatcher writes exactly the three bytes ":\n\n"
behind what was written before, changes nothing else of the writer, leaves the registry
and every outbox as they are, and its loop goes on. -/
theorem C16_heartbeat_frame (s : Streamer) (client : Ptr) (rw : ResponseWriter) :
    Dispatcher.step s client rw .tick = .ret (s, Write rw ":\n\n".toList, true)
      ∧ (Write rw ":\n\n".toList).body = rw.body ++ [':', '\n', '\n']
      ∧ ":\n\n".toList.length = 3
      ∧ (Write rw ":\n\n".toList).header = rw.header
      ∧ (Write rw ":\n\n".toList).status = rw.status
      ∧ (Write rw ":\n\n".toList).flusher = rw.flusher :=
  ⟨rfl, rfl, rfl, rfl, rfl, rfl⟩

/-- C14: for each of `BroadcastJson`, `MulticastJson` and `UnicastJson` and every
serializer: when the serializer fails, the call returns that error and the state as it
was, whether the streamer runs or not; when it gives a text, the call is `Broadcast`,
`Multicast` or `Unicast` with that text as data. -/
theorem C14_json_variants {α : Type} (Marshal : α → Except GoError Str) (s : Streamer)
    (event : Str) (data : α) (users : List Str) (clientID : ID) :
    (∀ err, Marshal data = .error err →
        BroadcastJson Marshal s event data = .ret (s, some err)
          ∧ MulticastJson Marshal s event data users = .ret (s, some err)
          ∧ UnicastJson Marshal s event data clientID = .ret (s, some err))
      ∧ (∀ t, Marshal data = .ok t →
        BroadcastJson Marshal s event data = Broadcast s event t
          ∧ MulticastJson Marshal s event data users = Multicast s event t users
          ∧ UnicastJson Marshal s event data clientID = Unicast s event t clientID) := by
  constructor
  · intro err h
    simp [BroadcastJson, MulticastJson, UnicastJson, h]
  · intro t h
    simp [BroadcastJson, MulticastJson, UnicastJson, h]

/-- C14 at a streamer that was never started: a failing serialization returns its own
error, not `ErrStreamerStopped`; and at the streamer with one client: a serialization
that gives "d" delivers as `Broadcast` with "d" does. -/
theorem C14_json_variants_witness :
    (BroadcastJson exampleMarshal (NewStreamer NewDefaultOptions) "e".toList none
        = .ret (NewStreamer NewDefaultOptions, some (.other "unsupported type".toList))
      ∧ MulticastJson exampleMarshal (NewStreamer NewDefaultOptions) "e".toList none ["k".toList]
        = .ret (NewStreamer NewDefaultOptions, some (.other "unsupported type".toList))
      ∧ UnicastJson exampleMarshal (NewStreamer NewDefaultOptions) "e".toList none 1
        = .ret (NewStreamer NewDefaultOptions, some (.other "unsupported type".toList)))
      ∧ (BroadcastJson exampleMarshal oneClient "e".toList (some "d".toList)
          = Broadcast oneClient "e".toList "d".toList
        ∧ MulticastJson exampleMarshal oneClient "e".toList (some "d".toList) ["k".toList]
          = Multicast oneClient "e".toList "d".toList ["k".toList]
        ∧ UnicastJson exampleMarshal oneClient "e".toList (some "d".toList) 1
          = Unicast oneClient "e".toList "d".toList 1) :=
  ⟨(C14_json_variants exampleMarshal (NewStreamer NewDefaultOptions) "e".toList none
      ["k".toList] 1).1 _ rfl,
   (C14_json_variants exampleMarshal oneClient "e".toList (some "d".toList)
      ["k".toList] 1).2 _ rfl⟩

theorem canonical_keys :
    CanonicalMIMEHeaderKey "Cache-Control".toList = "Cache-Control".toList
      ∧ CanonicalMIMEHeaderKey "Content-Type".toList = "Content-Type".toList
      ∧ CanonicalMIMEHeaderKey "Connection".toList = "Connection".toList
      ∧ CanonicalMIMEHeaderKey "X-Accel-Buffering".toList = "X-Accel-Buffering".toList := by
  decide

theorem Header_Set_get (h : GoMap Str (List Str)) (key value k : Str) :
    (Header.Set h key value).get k
      = if CanonicalMIMEHeaderKey key = k then some [value] else h.get k := by
  simp [Header.Set, GoMap.get_set]

/-- C17: for every options value, `SetHTTPHeaders` sets Cache-Control to "no-cache",
Content-Type to "text/event-stream" and Connection to "keep-alive"; it sets
X-Accel-Buffering to "no" when `NoXAccelBuffering` is true and leaves that header as
it was when it is false; every other header, the status and the body are as they
were. -/
theorem C17_response_headers (s : Streamer) (rw : ResponseWriter) :
    (SetHTTPHeaders s rw).header.get "Cache-Control".toList = some ["no-cache".toList]
      ∧ (SetHTTPHeaders s rw).header.get "Content-Type".toList
          = some ["text/event-stream".toList]
      ∧ (SetHTTPHeaders s rw).header.get "Connection".toList = some ["keep-alive".toList]
      ∧ (SetHTTPHeaders s rw).header.get "X-Accel-Buffering".toList
          = (if s.options.NoXAccelBuffering = true then some ["no".toList]
             else rw.header.get "X-Accel-Buffering".toList)
      ∧ (∀ k, k ≠ "Cache-Control".toList → k ≠ "Content-Type".toList →
          k ≠ "Connection".toList → k ≠ "X-Accel-Buffering".toList →
          (SetHTTPHeaders s rw).header.get k = rw.header.get k)
      ∧ (SetHTTPHeaders s rw).status = rw.status
      ∧ (SetHTTPHeaders s rw).body = rw.body
      ∧ (SetHTTPHeaders s rw).flusher = rw.flusher
      ∧ NewDefaultOptions.NoXAccelBuffering = true := by
  obtain ⟨h1, h2, h3, h4⟩ := canonical_keys
  have d12 : ¬ "Cache-Control".toList = "Content-Type".toList := by decide
  have d13 : ¬ "Cache-Control".toList = "Connection".toList := by decide
  have d14 : ¬ "Cache-Control".toList = "X-Accel-Buffering".toList := by decide
  have d23 : ¬ "Content-Type".toList = "Connection".toList := by decide
  have d24 : ¬ "Content-Type".toList = "X-Accel-Buffering".toList := by decide
  have d34 : ¬ "Connection".toList = "X-Accel-Buffering".toList := by decide
  have d21 : ¬ "Content-Type".toList = "Cache-Control".toList := by decide
  have d31 : ¬ "Connection".toList = "Cache-Control".toList := by decide
  have d41 : ¬ "X-Accel-Buffering".toList = "Cache-Control".toList := by decide
  have d32 : ¬ "Connection".toList = "Content-Type".toList := by decide
  have d42 : ¬ "X-Accel-Buffering".toList = "Content-Type".toList := by decide
  have d43 : ¬ "X-Accel-Buffering".toList = "Connection".toList := by decide
  have hother : ∀ k, k ≠ "Cache-Control".toList → k ≠ "Content-Type".toList →
      k ≠ "Connection".toList → k ≠ "X-Accel-Buffering".toList →
      (SetHTTPHeaders s rw).header.get k = rw.header.get k := by
    intro k k1 k2 k3 k4
    cases hx : s.options.NoXAccelBuffering <;>
      simp only [SetHTTPHeaders, hx, Header_Set_get, h1, h2, h3, h4, Bool.false_eq_true,
        if_false, if_true, if_neg (Ne.symm k1), if_neg (Ne.symm k2), if_neg (Ne.symm k3),
        if_neg (Ne.symm k4)]
  refine ⟨?_, ?_, ?_, ?_, hother, ?_, ?_, ?_, rfl⟩ <;>
    cases hx : s.options.NoXAccelBuffering <;>
    simp only [SetHTTPHeaders, hx, Header_Set_get, h1, h2, h3, h4, Bool.false_eq_true,
      if_false, if_true, d12, d13, d14, d23, d24, d34, d21, d31, d41, d32, d42, d43]

/-! ## More on maps, and the invariant of the by-ID index -/

namespace GoMap

variable {K V : Type} [DecidableEq K]

theorem set_set (m : GoMap K V) (k : K) (v v' : V) : (m.set k v).set k v' = m.set k v' := by
  induction m with
  | nil => simp [set]
  | cons e m ih =>
    obtain ⟨k₀, v₀⟩ := e
    by_cases hk : k₀ = k
    · simp [set, hk]
    · simp [set, hk, ih]

theorem delete_delete (m : GoMap K V) (k : K) : (m.delete k).delete k = m.delete k := by
  induction m with
  | nil => simp [delete]
  | cons e m ih =>
    obtain ⟨k₀, v₀⟩ := e
    by_cases hk : k₀ = k
    · simp [delete, hk, ih]
    · simp [delete, hk, ih]

theorem set_of_get {m : GoMap K V} {k : K} {v : V} (h : m.get k = some v) : m.set k v = m := by
  induction m with
  | nil => simp [get] at h
  | cons e m ih =>
    obtain ⟨k₀, v₀⟩ := e
    simp only [get] at h
    by_cases hk : k₀ = k
    · simp only [hk, if_true, Option.some.injEq] at h
      simp [set, hk, h]
    · simp only [hk, if_false] at h
      simp [set, hk, ih h]

theorem delete_of_get_none {m : GoMap K V} {k : K} (h : m.get k = none) : m.delete k = m := by
  induction m with
  | nil => simp [delete]
  | cons e m ih =>
    obtain ⟨k₀, v₀⟩ := e
    simp only [get] at h
    by_cases hk : k₀ = k
    · simp [hk] at h
    · simp only [hk, if_false] at h
      simp [delete, hk, ih h]

theorem keys_set_of_get {m : GoMap K V} {k : K} {v : V} (v' : V) (h : m.get k = some v) :
    (m.set k v').map Prod.fst = m.map Prod.fst := by
  induction m with
  | nil => simp [get] at h
  | cons e m ih =>
    obtain ⟨k₀, v₀⟩ := e
    simp only [get] at h
    by_cases hk : k₀ = k
    · simp [set, hk]
    · simp only [hk, if_false] at h
      simp [set, hk, ih h]

theorem keys_subset_set (m : GoMap K V) (k : K) (v : V) {k' : K}
    (h : k' ∈ m.map Prod.fst) : k' ∈ (m.set k v).map Prod.fst := by
  induction m with
  | nil => simp at h
  | cons e m ih =>
    obtain ⟨k₀, v₀⟩ := e
    simp only [List.map_cons, List.mem_cons] at h
    by_cases hk : k₀ = k
    · simp only [set, hk, if_true, List.map_cons, List.mem_cons]
      rcases h with h | h
      · exact Or.inl (h.trans hk)
      · exact Or.inr h
    · simp only [set, hk, if_false, List.map_cons, List.mem_cons]
      rcases h with h | h
      · exact Or.inl h
      · exact Or.inr (ih h)

theorem mem_keys_of_get {m : GoMap K V} {k : K} {v : V} (h : m.get k = some v) :
    k ∈ m.map Prod.fst :=
  List.mem_map.mpr ⟨(k, v), get_some_mem h, rfl⟩

end GoMap

theorem InvID.initID : InvID [] [] :=
  ⟨by simp, by simp⟩

theorem InvID.sameIdsHeap {cm : GoMap ID Ptr} {heap heap' : List Client} (h : InvID cm heap)
    (hs : SameIds heap heap') : InvID cm heap' := by
  refine ⟨h.keys, fun f hf => ?_⟩
  obtain ⟨d, hd, hi⟩ := h.filed f hf
  obtain ⟨d', hd', _, hi'⟩ := hs.2 f.2 d hd
  exact ⟨d', hd', hi'.trans hi⟩

theorem InvID.allocID {cm : GoMap ID Ptr} {heap : List Client} (h : InvID cm heap) (c : Client) :
    InvID cm (heap ++ [c]) := by
  refine ⟨h.keys, fun f hf => ?_⟩
  obtain ⟨d, hd, hi⟩ := h.filed f hf
  exact ⟨d, deref_concat_old c hd, hi⟩

theorem InvID.addID {cm : GoMap ID Ptr} {heap : List Client} (h : InvID cm heap) {p : Ptr}
    {c : Client} (hd : deref heap p = some c) : InvID (cm.set c.connectionID p) heap := by
  refine ⟨GoMap.keys_set_nodup h.keys _ _, fun f hf => ?_⟩
  rcases GoMap.mem_set h.keys hf with rfl | ⟨hf', _⟩
  · exact ⟨c, hd, rfl⟩
  · exact h.filed f hf'

theorem InvID.removeID {cm : GoMap ID Ptr} {heap : List Client} (h : InvID cm heap) (id : ID) :
    InvID (cm.delete id) heap :=
  ⟨GoMap.keys_delete_nodup h.keys _, fun f hf => h.filed f (GoMap.mem_delete hf).1⟩

/-- Every call that returns keeps the invariant of the by-ID index. -/
theorem call_invID {s s' : Streamer} (c : Call) (h : InvID s.clientMap s.heap)
    (hc : call s c = .ret s') : InvID s'.clientMap s'.heap := by
  cases c with
  | Start =>
    simp only [call, Outcome.ret.injEq] at hc
    subst hc
    exact h
  | Stop =>
    simp only [call] at hc
    obtain ⟨_, hcm, _, _, _, hcl⟩ := Stop_ret hc
    rw [hcm]
    exact h.sameIdsHeap (closeEach_sameIds hcl)
  | NewClient userKey id =>
    simp only [call] at hc
    have hcap : s.options.SendChanBufferSize ≤ maxChanCap := by
      obtain ⟨r₀, hr₀, _⟩ := Outcome.state_ret hc
      exact NewClient_ret_cap hr₀
    by_cases hst : s.stopped = true
    · rw [NewClient_stopped s hcap hst] at hc
      simp only [Outcome.state, Outcome.ret.injEq] at hc
      subst hc
      exact h.allocID _
    · have hrun : s.stopped = false := by simpa using hst
      rw [NewClient_running s hcap hrun] at hc
      simp only [Outcome.state, Outcome.ret.injEq] at hc
      subst hc
      have hd : deref (s.heap ++ [newClient s userKey id]) s.heap.length
          = some (newClient s userKey id) := List.getElem?_concat_length _ _
      exact (h.allocID (newClient s userKey id)).addID hd
  | removeClient p =>
    obtain ⟨r, hr, rfl⟩ := Outcome.state_ret hc
    obtain ⟨c, _, hs⟩ := removeClient_ret hr
    rw [hs]
    exact h.removeID _
  | Broadcast event data =>
    obtain ⟨r, hr, rfl⟩ := Outcome.state_ret hc
    obtain ⟨_, hcm, _, hsh⟩ := fanout_frame hr
    rw [hcm]
    exact h.sameIdsHeap hsh.sameIds
  | Multicast event data users =>
    obtain ⟨r, hr, rfl⟩ := Outcome.state_ret hc
    obtain ⟨_, hcm, _, hsh⟩ := fanout_frame hr
    rw [hcm]
    exact h.sameIdsHeap hsh.sameIds
  | Unicast event data clientID =>
    obtain ⟨r, hr, rfl⟩ := Outcome.state_ret hc
    obtain ⟨_, hcm, _, hsh⟩ := fanout_frame hr
    rw [hcm]
    exact h.sameIdsHeap hsh.sameIds
  | Dispatch client ev =>
    obtain ⟨r, hr, rfl⟩ := Outcome.state_ret hc
    cases ev with
    | done =>
      simp only [Dispatcher.step] at hr
      cases hrm : removeClient s client with
      | ret r' =>
        rw [hrm] at hr
        dsimp only at hr
        obtain ⟨c, _, hs⟩ := removeClient_ret hrm
        cases hdr : drain r'.1.heap client with
        | ret heap' =>
          rw [hdr] at hr
          cases hr
          rw [hs] at hdr
          rw [hs]
          exact (h.removeID _).sameIdsHeap (drain_sameShape hdr).sameIds
        | panic e => rw [hdr] at hr; cases hr
        | blocked => rw [hdr] at hr; cases hr
        | spins => rw [hdr] at hr; cases hr
      | panic e => rw [hrm] at hr; cases hr
      | blocked => rw [hrm] at hr; cases hr
      | spins => rw [hrm] at hr; cases hr
    | recv =>
      simp only [Dispatcher.step] at hr
      cases hd : deref s.heap client with
      | none => simp [hd] at hr
      | some c =>
        rw [hd] at hr
        dsimp only at hr
        cases hb : c.send.buf with
        | nil =>
          rw [hb] at hr
          dsimp only at hr
          by_cases ho : c.send.closed = true
          · rw [if_pos ho] at hr
            cases hr
            exact h
          · rw [if_neg ho] at hr
            cases hr
        | cons m rest =>
          rw [hb] at hr
          cases hr
          exact h.sameIdsHeap
            (sameIds_set { c with send := { c.send with buf := rest } } hd rfl rfl)
    | tick =>
      simp only [Dispatcher.step, Outcome.ret.injEq] at hr
      subst hr
      exact h

/-- Every reachable state satisfies the invariant of the by-ID index. -/
theorem Reachable.invID {s : Streamer} (h : Reachable s) : InvID s.clientMap s.heap := by
  induction h with
  | init options => exact InvID.initID
  | step c _ _ hc ih => exact call_invID c ih hc

/-! ## `removeClient` and `NewClient` -/

theorem removeClient_ok {s : Streamer} {p : Ptr} {c : Client} (hc : deref s.heap p = some c) :
    removeClient s p
      = .ret (stateWithout s c, none) := by
  unfold removeClient
  rw [hc]
  rfl

theorem lookupUser_without (um : GoMap Str (GoMap ID Ptr)) (c : Client) (k : Str) (id : ID) :
    lookupUser (userMapWithout um c) k id
      = if k = c.userKey ∧ id = c.connectionID then none else lookupUser um k id := by
  unfold lookupUser userMapWithout
  cases hg : um.get c.userKey with
  | none =>
    by_cases hk : k = c.userKey
    · subst hk
      simp [hg]
    · simp [hk]
  | some arr =>
    simp only [GoMap.get_set]
    by_cases hk : c.userKey = k
    · subst hk
      simp only [if_true, Option.some_bind, GoMap.get_delete, hg, true_and]
      by_cases hi : c.connectionID = id
      · simp [hi]
      · have hi' : ¬ id = c.connectionID := fun h => hi h.symm
        simp [hi, hi']
    · have hk' : ¬ k = c.userKey := fun h => hk h.symm
      simp [hk, hk']

theorem lookupUser_with (um : GoMap Str (GoMap ID Ptr)) (userKey : Str) (id : ID) (p : Ptr)
    (k : Str) (i : ID) :
    lookupUser (userMapWith um userKey id p) k i
      = if k = userKey ∧ i = id then some p else lookupUser um k i := by
  unfold lookupUser userMapWith
  simp only [GoMap.get_set]
  by_cases hk : userKey = k
  · subst hk
    simp only [if_true, Option.some_bind, GoMap.get_set, true_and]
    by_cases hi : id = i
    · simp [hi]
    · have hi' : ¬ i = id := fun h => hi h.symm
      simp only [hi, hi', if_false]
      cases hg : um.get userKey <;> simp [GoMap.get]
  · have hk' : ¬ k = userKey := fun h => hk h.symm
    simp [hk, hk']

theorem inUserMap_eq (s : Streamer) (p : Ptr) :
    inUserMap s p
      = match deref s.heap p with
        | none => false
        | some c => lookupUser s.userMap c.userKey c.connectionID == some p := rfl

theorem keys_userMapWithout (um : GoMap Str (GoMap ID Ptr)) (c : Client) :
    (userMapWithout um c).map Prod.fst = um.map Prod.fst := by
  unfold userMapWithout
  cases hg : um.get c.userKey with
  | none => rfl
  | some arr => exact GoMap.keys_set_of_get _ hg

/-- The indices of a state without the client at `p`, whose value is `c`. -/
theorem membership_without {s : Streamer} {p : Ptr} {c : Client} (hc : deref s.heap p = some c)
    (hids : ∀ p q c d, deref s.heap p = some c → deref s.heap q = some d →
      c.connectionID = d.connectionID → p = q) (q : Ptr) :
    inUserMap (stateWithout s c) q = (if q = p then false else inUserMap s q)
      ∧ inClientMap (stateWithout s c) q = (if q = p then false else inClientMap s q) := by
  by_cases hq : q = p
  · subst hq
    simp [inUserMap_eq, inClientMap, stateWithout, hc, lookupUser_without, GoMap.get_delete]
  · simp only [hq, if_false]
    cases hd : deref s.heap q with
    | none => simp [inUserMap_eq, inClientMap, stateWithout, hd]
    | some d =>
      have hne : ¬ c.connectionID = d.connectionID := fun h => hq (hids p q c d hc hd h).symm
      have hne' : ¬ d.connectionID = c.connectionID := fun h => hne h.symm
      simp [inUserMap_eq, inClientMap, stateWithout, hd, lookupUser_without, GoMap.get_delete,
        hne, hne']

/-- A client that is in neither index: `removeClient` finds nothing to delete. -/
theorem without_absent {s : Streamer} (hinv : Inv s.userMap s.clientMap s.heap)
    (hid : InvID s.clientMap s.heap) {p : Ptr} {c : Client} (hc : deref s.heap p = some c)
    (hu : inUserMap s p = false) (hm : inClientMap s p = false) :
    stateWithout s c = s := by
  have hboth : userMapWithout s.userMap c = s.userMap
      ∧ s.clientMap.delete c.connectionID = s.clientMap := by
    constructor
    · unfold userMapWithout
      cases hg : s.userMap.get c.userKey with
      | none => rfl
      | some arr =>
        have harr : arr.get c.connectionID = none := by
          cases ha : arr.get c.connectionID with
          | none => rfl
          | some q =>
            have hq := (hinv.key_of_id hc (GoMap.get_some_mem hg) (GoMap.get_some_mem ha) rfl).1
            simp only at hq
            subst hq
            simp [inUserMap_eq, hc, lookupUser, hg, ha] at hu
        dsimp only
        rw [GoMap.delete_of_get_none harr]
        exact GoMap.set_of_get hg
    · apply GoMap.delete_of_get_none
      cases ha : s.clientMap.get c.connectionID with
      | none => rfl
      | some q =>
        obtain ⟨d, hd, hi⟩ := hid.filed _ (GoMap.get_some_mem ha)
        have hq : p = q := hinv.ids p q c d hc hd hi.symm
        subst hq
        simp [inClientMap, hc, ha] at hm
  unfold stateWithout
  rw [hboth.1, hboth.2]

/-- C11: for every connection, `removeClient` returns no error and leaves a state in
which the connection is in neither index, every other connection is in each index
exactly when it was before, and the store of clients, with the outbox of the removed
connection, is as it was; a second `removeClient` leaves that state as it is, and so
does a `removeClient` of a connection that is in neither index. -/
theorem C11_removeClient_idempotent (s : Streamer) (hr : Reachable s) (p : Ptr) (c : Client)
    (hc : deref s.heap p = some c) :
    ∃ s', removeClient s p = .ret (s', none)
      ∧ inUserMap s' p = false ∧ inClientMap s' p = false
      ∧ (∀ q, q ≠ p → inUserMap s' q = inUserMap s q ∧ inClientMap s' q = inClientMap s q)
      ∧ s'.heap = s.heap ∧ deref s'.heap p = some c
      ∧ s'.stopped = s.stopped ∧ s'.options = s.options ∧ s'.wg = s.wg
      ∧ removeClient s' p = .ret (s', none)
      ∧ (inUserMap s p = false → inClientMap s p = false → s' = s) := by
  have hinv := hr.inv
  have hreach' : Reachable (stateWithout s c) :=
    Reachable.step (.removeClient p) hr trivial (by simp [call, removeClient_ok hc, Outcome.state])
  have hmem := membership_without hc hinv.ids
  refine ⟨_, removeClient_ok hc, ?_, ?_, ?_, rfl, hc, rfl, rfl, rfl, ?_, ?_⟩
  · simpa using (hmem p).1
  · simpa using (hmem p).2
  · intro q hq
    have := hmem q
    simpa [hq] using this
  · have hc' : deref (stateWithout s c).heap p = some c := hc
    have habs := without_absent hreach'.inv hreach'.invID hc'
      (by simpa using (hmem p).1) (by simpa using (hmem p).2)
    rw [removeClient_ok hc', habs]
  · intro hu hm
    exact without_absent hinv hr.invID hc hu hm

/-- C11 at the streamer with two clients, for the first of them. -/
theorem C11_removeClient_idempotent_witness :
    ∃ s', removeClient twoClients 0 = .ret (s', none)
      ∧ inUserMap s' 0 = false ∧ inClientMap s' 0 = false
      ∧ (∀ q, q ≠ 0 → inUserMap s' q = inUserMap twoClients q
            ∧ inClientMap s' q = inClientMap twoClients q)
      ∧ s'.heap = twoClients.heap
      ∧ deref s'.heap 0 = some { userKey := "k".toList, connectionID := 1,
                                 send := { buf := [], cap := 100, closed := false } }
      ∧ s'.stopped = twoClients.stopped ∧ s'.options = twoClients.options
      ∧ s'.wg = twoClients.wg
      ∧ removeClient s' 0 = .ret (s', none)
      ∧ (inUserMap twoClients 0 = false → inClientMap twoClients 0 = false → s' = twoClients) :=
  C11_removeClient_idempotent twoClients twoClients_reachable 0 _ rfl

theorem NewClient_stateWith (s : Streamer) (hcap : s.options.SendChanBufferSize ≤ maxChanCap)
    (hrun : s.stopped = false) (userKey : Str) (id : ID) :
    NewClient s userKey id = .ret (stateWith s userKey id, some s.heap.length, none) :=
  NewClient_running s hcap hrun userKey id

theorem deref_stateWith_new (s : Streamer) (userKey : Str) (id : ID) :
    deref (stateWith s userKey id).heap s.heap.length = some (newClient s userKey id) :=
  List.getElem?_concat_length _ _

theorem deref_stateWith_old (s : Streamer) (userKey : Str) (id : ID) {q : Ptr} {d : Client}
    (h : deref s.heap q = some d) : deref (stateWith s userKey id).heap q = some d :=
  deref_concat_old _ h

/-- C12: on a running streamer, after `removeClient` of a connection, `Broadcast` and
`Multicast` no longer have the connection among their targets, but `Unicast` to its
identifier does not return without error: it finds no client, keeps the nil element of
its targets and dereferences it. -/
theorem C12_unicast_after_removeClient_panics (s : Streamer) (hr : Reachable s)
    (hrun : s.stopped = false) (p : Ptr) (c : Client) (hc : deref s.heap p = some c)
    (event data : Str) (users : List Str) :
    removeClient s p = .ret (stateWithout s c, none)
      ∧ (stateWithout s c).clientMap.get c.connectionID = none
      ∧ Unicast (stateWithout s c) event data c.connectionID = .panic .nilDereference
      ∧ some p ∉ broadcastTargets (stateWithout s c)
      ∧ some p ∉ multicastTargets (stateWithout s c) users := by
  have hreach' : Reachable (stateWithout s c) :=
    Reachable.step (.removeClient p) hr trivial (by simp [call, removeClient_ok hc, Outcome.state])
  have hinv' := hreach'.inv
  have hout : inUserMap (stateWithout s c) p = false := by
    simpa using (membership_without hc hr.inv.ids p).1
  have hget : (stateWithout s c).clientMap.get c.connectionID = none := by
    simp [stateWithout, GoMap.get_delete]
  have hrun' : (stateWithout s c).stopped = false := hrun
  refine ⟨removeClient_ok hc, hget, ?_, ?_, ?_⟩
  · simp [Unicast, unicastTargets, hget, hrun', sendAndReturn, send, sendEach, chanSend]
  · rw [broadcastTargets_eq]
    intro hmem
    obtain ⟨q, hq, hqp⟩ := List.mem_map.mp hmem
    cases hqp
    have := (hinv'.mem_userClients_iff p).mp hq
    rw [hout] at this
    cases this
  · rw [multicastTargets_eq]
    intro hmem
    obtain ⟨q, hq, hqp⟩ := List.mem_map.mp hmem
    cases hqp
    obtain ⟨k, _, hk⟩ := List.mem_flatMap.mp hq
    have := ((hinv'.mem_clientsOf_iff k p).mp hk).1
    rw [hout] at this
    cases this

/-- C12 at the failing input: `Start`, `NewClient` with key "k" and identifier 1,
`removeClient` of that connection, `Unicast` to identifier 1. -/
theorem C12_unicast_after_removeClient_witness :
    removeClient oneClient 0
        = .ret (stateWithout oneClient
                  { userKey := "k".toList, connectionID := 1,
                    send := { buf := [], cap := 100, closed := false } }, none)
      ∧ (stateWithout oneClient
            { userKey := "k".toList, connectionID := 1,
              send := { buf := [], cap := 100, closed := false } }).clientMap.get 1 = none
      ∧ Unicast (stateWithout oneClient
            { userKey := "k".toList, connectionID := 1,
              send := { buf := [], cap := 100, closed := false } }) "e".toList "d".toList 1
          = .panic .nilDereference
      ∧ some 0 ∉ broadcastTargets (stateWithout oneClient
            { userKey := "k".toList, connectionID := 1,
              send := { buf := [], cap := 100, closed := false } })
      ∧ some 0 ∉ multicastTargets (stateWithout oneClient
            { userKey := "k".toList, connectionID := 1,
              send := { buf := [], cap := 100, closed := false } }) ["k".toList] :=
  C12_unicast_after_removeClient_panics oneClient oneClient_reachable rfl 0
    { userKey := "k".toList, connectionID := 1,
      send := { buf := [], cap := 100, closed := false } }
    rfl "e".toList "d".toList ["k".toList]

/-- C13, as amended: for every user key, when `SendChanBufferSize` is a capacity that
`make` accepts: on a running streamer `NewClient` returns no error and a new connection
with that user key and the generated identifier whose outbox is empty, open and of
capacity `SendChanBufferSize`; afterwards the connection is in the by-user index under
the key and in the by-ID index under the identifier, every client allocated before is
as it was, and every connection registered before is still registered provided no
registered connection has the generated identifier.  On a streamer that is not running
it returns `ErrStreamerStopped` and no connection, and both indices are as they were. -/
theorem C13_newClient_registers (s : Streamer) (userKey : Str) (id : ID)
    (hcap : s.options.SendChanBufferSize ≤ maxChanCap) :
    (s.stopped = false →
      NewClient s userKey id = .ret (stateWith s userKey id, some s.heap.length, none)
        ∧ deref (stateWith s userKey id).heap s.heap.length = some (newClient s userKey id)
        ∧ GetUserKey (newClient s userKey id) = userKey
        ∧ GetConnectionID (newClient s userKey id) = id
        ∧ (newClient s userKey id).send
            = { buf := [], cap := s.options.SendChanBufferSize, closed := false }
        ∧ lookupUser (stateWith s userKey id).userMap userKey id = some s.heap.length
        ∧ (stateWith s userKey id).clientMap.get id = some s.heap.length
        ∧ registered (stateWith s userKey id) s.heap.length = true
        ∧ (∀ q d, deref s.heap q = some d → deref (stateWith s userKey id).heap q = some d)
        ∧ ((∀ q d, deref s.heap q = some d → registered s q = true → d.connectionID ≠ id) →
            ∀ q, registered s q = true → registered (stateWith s userKey id) q = true))
      ∧ (s.stopped = true →
        ∃ s', NewClient s userKey id = .ret (s', none, some .ErrStreamerStopped)
          ∧ s'.userMap = s.userMap ∧ s'.clientMap = s.clientMap) := by
  constructor
  · intro hrun
    have hlu : lookupUser (stateWith s userKey id).userMap userKey id = some s.heap.length := by
      simp [stateWith, lookupUser_with]
    have hcm : (stateWith s userKey id).clientMap.get id = some s.heap.length := by
      simp [stateWith, GoMap.get_set]
    refine ⟨NewClient_stateWith s hcap hrun userKey id, deref_stateWith_new s userKey id, rfl,
      rfl, rfl, hlu, hcm, ?_, fun q d h => deref_stateWith_old s userKey id h, ?_⟩
    · have hu : inUserMap (stateWith s userKey id) s.heap.length = true := by
        rw [inUserMap_eq, deref_stateWith_new]
        simpa [newClient] using hlu
      have hm : inClientMap (stateWith s userKey id) s.heap.length = true := by
        unfold inClientMap
        rw [deref_stateWith_new]
        simpa [newClient] using hcm
      simp [registered, hu, hm]
    · intro hfresh q hq
      cases hd : deref s.heap q with
      | none => simp [registered, inUserMap_eq, hd] at hq
      | some d =>
        have hne := hfresh q d hd hq
        have hne' : ¬ id = d.connectionID := fun h => hne h.symm
        have hd' := deref_stateWith_old s userKey id hd
        simp only [registered, Bool.and_eq_true, inUserMap_eq, inClientMap, hd, beq_iff_eq] at hq
        simp only [registered, Bool.and_eq_true, inUserMap_eq, inClientMap, hd', beq_iff_eq]
        constructor
        · have hcond : ¬ (d.userKey = userKey ∧ d.connectionID = id) := fun h => hne h.2
          simp only [stateWith, lookupUser_with, hcond, if_false]
          exact hq.1
        · simp only [stateWith, GoMap.get_set, hne', if_false]
          exact hq.2
  · intro hst
    exact ⟨_, NewClient_stopped s hcap hst userKey id, rfl, rfl⟩

/-- C13, as amended, at the streamer with one client, for the key "j" and the
identifier 2, and at the streamer that was never started. -/
theorem C13_newClient_registers_witness :
    (NewClient oneClient "j".toList 2
          = .ret (stateWith oneClient "j".toList 2, some oneClient.heap.length, none)
        ∧ deref (stateWith oneClient "j".toList 2).heap oneClient.heap.length
            = some (newClient oneClient "j".toList 2)
        ∧ GetUserKey (newClient oneClient "j".toList 2) = "j".toList
        ∧ GetConnectionID (newClient oneClient "j".toList 2) = 2
        ∧ (newClient oneClient "j".toList 2).send
            = { buf := [], cap := oneClient.options.SendChanBufferSize, closed := false }
        ∧ lookupUser (stateWith oneClient "j".toList 2).userMap "j".toList 2
            = some oneClient.heap.length
        ∧ (stateWith oneClient "j".toList 2).clientMap.get 2 = some oneClient.heap.length
        ∧ registered (stateWith oneClient "j".toList 2) oneClient.heap.length = true
        ∧ (∀ q d, deref oneClient.heap q = some d →
            deref (stateWith oneClient "j".toList 2).heap q = some d)
        ∧ (∀ q, registered oneClient q = true →
            registered (stateWith oneClient "j".toList 2) q = true))
      ∧ (∃ s', NewClient (NewStreamer NewDefaultOptions) "j".toList 2
            = .ret (s', none, some .ErrStreamerStopped)
          ∧ s'.userMap = (NewStreamer NewDefaultOptions).userMap
          ∧ s'.clientMap = (NewStreamer NewDefaultOptions).clientMap) :=
  have h := (C13_newClient_registers oneClient "j".toList 2 (by decide)).1 rfl
  ⟨⟨h.1, h.2.1, h.2.2.1, h.2.2.2.1, h.2.2.2.2.1, h.2.2.2.2.2.1, h.2.2.2.2.2.2.1,
      h.2.2.2.2.2.2.2.1, h.2.2.2.2.2.2.2.2.1,
      h.2.2.2.2.2.2.2.2.2 (by
        intro q d hd _
        rcases q with _ | q
        · simp only [oneClient, deref, List.getElem?_cons_zero, Option.some.injEq] at hd
          subst hd
          decide
        · simp [oneClient, deref] at hd)⟩,
   (C13_newClient_registers (NewStreamer NewDefaultOptions) "j".toList 2 (by decide)).2 rfl⟩

/-- C13 as stated fails where `SendChanBufferSize` is no capacity that `make` accepts:
with a `SendChanBufferSize` of 2^62 `NewClient` panics in `make`, on the started
streamer, where the claim has it return a connection, and on the streamer that was
never started, where the claim has it return `ErrStreamerStopped`. -/
theorem C13_counterexample_capacity :
    (Start (NewStreamer { NoXAccelBuffering := true, SendChanBufferSize := 2 ^ 62,
                          UserAuthenticator := none })).stopped = false
      ∧ NewClient (Start (NewStreamer { NoXAccelBuffering := true, SendChanBufferSize := 2 ^ 62,
                                        UserAuthenticator := none })) "k".toList 1
          = .panic .makechanSizeOutOfRange
      ∧ (NewStreamer { NoXAccelBuffering := true, SendChanBufferSize := 2 ^ 62,
                       UserAuthenticator := none }).stopped = true
      ∧ NewClient (NewStreamer { NoXAccelBuffering := true, SendChanBufferSize := 2 ^ 62,
                                 UserAuthenticator := none }) "k".toList 1
          = .panic .makechanSizeOutOfRange :=
  ⟨rfl, NewClient_out_of_range _ (by decide) _ _, rfl, NewClient_out_of_range _ (by decide) _ _⟩

/-! ## The user keys of the by-user index -/

theorem removeClient_keys {s s' : Streamer} {p : Ptr} {e : Option GoError}
    (h : removeClient s p = .ret (s', e)) :
    s'.userMap.map Prod.fst = s.userMap.map Prod.fst := by
  obtain ⟨c, hc, _⟩ := removeClient_ret h
  rw [removeClient_ok hc] at h
  cases h
  exact keys_userMapWithout _ _

/-- Every call but `Stop` keeps the user keys of the by-user index. -/
theorem call_keys {s s' : Streamer} (c : Call) (hne : c ≠ .Stop) (hc : call s c = .ret s')
    {k : Str} (hk : k ∈ s.userMap.map Prod.fst) : k ∈ s'.userMap.map Prod.fst := by
  cases c with
  | Start =>
    simp only [call, Outcome.ret.injEq] at hc
    subst hc
    exact hk
  | Stop => exact absurd rfl hne
  | NewClient userKey id =>
    simp only [call] at hc
    have hcap : s.options.SendChanBufferSize ≤ maxChanCap := by
      obtain ⟨r₀, hr₀, _⟩ := Outcome.state_ret hc
      exact NewClient_ret_cap hr₀
    by_cases hst : s.stopped = true
    · rw [NewClient_stopped s hcap hst] at hc
      simp only [Outcome.state, Outcome.ret.injEq] at hc
      subst hc
      exact hk
    · have hrun : s.stopped = false := by simpa using hst
      rw [NewClient_stateWith s hcap hrun] at hc
      simp only [Outcome.state, Outcome.ret.injEq] at hc
      subst hc
      exact GoMap.keys_subset_set _ _ _ hk
  | removeClient p =>
    obtain ⟨r, hr, rfl⟩ := Outcome.state_ret hc
    rw [removeClient_keys hr]
    exact hk
  | Broadcast event data =>
    obtain ⟨r, hr, rfl⟩ := Outcome.state_ret hc
    rw [(fanout_frame hr).1]
    exact hk
  | Multicast event data users =>
    obtain ⟨r, hr, rfl⟩ := Outcome.state_ret hc
    rw [(fanout_frame hr).1]
    exact hk
  | Unicast event data clientID =>
    obtain ⟨r, hr, rfl⟩ := Outcome.state_ret hc
    rw [(fanout_frame hr).1]
    exact hk
  | Dispatch client ev =>
    obtain ⟨r, hr, rfl⟩ := Outcome.state_ret hc
    cases ev with
    | done =>
      simp only [Dispatcher.step] at hr
      cases hrm : removeClient s client with
      | ret r' =>
        rw [hrm] at hr
        dsimp only at hr
        cases hdr : drain r'.1.heap client with
        | ret heap' =>
          rw [hdr] at hr
          cases hr
          show k ∈ r'.1.userMap.map Prod.fst
          rw [removeClient_keys hrm]
          exact hk
        | panic e => rw [hdr] at hr; cases hr
        | blocked => rw [hdr] at hr; cases hr
        | spins => rw [hdr] at hr; cases hr
      | panic e => rw [hrm] at hr; cases hr
      | blocked => rw [hrm] at hr; cases hr
      | spins => rw [hrm] at hr; cases hr
    | recv =>
      simp only [Dispatcher.step] at hr
      cases hd : deref s.heap client with
      | none => simp [hd] at hr
      | some c =>
        rw [hd] at hr
        dsimp only at hr
        cases hb : c.send.buf with
        | nil =>
          rw [hb] at hr
          dsimp only at hr
          by_cases ho : c.send.closed = true
          · rw [if_pos ho] at hr
            cases hr
            exact hk
          · rw [if_neg ho] at hr
            cases hr
        | cons m rest =>
          rw [hb] at hr
          cases hr
          exact hk
    | tick =>
      simp only [Dispatcher.step, Outcome.ret.injEq] at hr
      subst hr
      exact hk

/-- C20: on a running streamer, for a user key without connections, a `NewClient` that
returns (as it does whenever `SendChanBufferSize` is a capacity that `make` accepts)
returns a new connection and no error, and `removeClient` of that connection leaves the
key in the by-user index, mapped to an empty set of connections.  In every state
`removeClient` leaves the list of user keys of the by-user index as it is, and every
call but `Stop` keeps each user key the index has. -/
theorem C20_user_keys_only_grow (s : Streamer) (hrun : s.stopped = false) (userKey : Str)
    (id : ID) (hnone : (s.userMap.get userKey).getD [] = []) :
    ((s.options.SendChanBufferSize ≤ maxChanCap →
          ∃ s₁, NewClient s userKey id = .ret (s₁, some s.heap.length, none))
        ∧ (∀ (s₁ : Streamer) (p : Option Ptr) (e : Option GoError),
            NewClient s userKey id = .ret (s₁, p, e) →
            p = some s.heap.length ∧ e = none
              ∧ ∃ s₂, removeClient s₁ s.heap.length = .ret (s₂, none)
                ∧ s₂.userMap.get userKey = some []
                ∧ userKey ∈ s₂.userMap.map Prod.fst))
      ∧ (∀ (s₀ s' : Streamer) (p : Ptr) (e : Option GoError),
          removeClient s₀ p = .ret (s', e) → s'.userMap.map Prod.fst = s₀.userMap.map Prod.fst)
      ∧ (∀ (s₀ s' : Streamer) (c : Call), c ≠ .Stop → call s₀ c = .ret s' →
          ∀ k ∈ s₀.userMap.map Prod.fst, k ∈ s'.userMap.map Prod.fst) := by
  refine ⟨⟨fun hcap => ⟨_, NewClient_stateWith s hcap hrun userKey id⟩, ?_⟩,
    fun _ _ _ _ h => removeClient_keys h,
    fun _ _ c hne hc k hk => call_keys c hne hc hk⟩
  intro s₁ p e h
  obtain ⟨hs, hp, he⟩ := NewClient_ret_running hrun h
  subst hs
  have hget : (stateWithout (stateWith s userKey id) (newClient s userKey id)).userMap.get userKey
      = some [] := by
    simp [stateWithout, stateWith, userMapWithout, userMapWith, newClient, GoMap.get_set, hnone,
      GoMap.set, GoMap.delete]
  exact ⟨hp, he, _, removeClient_ok (deref_stateWith_new s userKey id), hget,
    GoMap.mem_keys_of_get hget⟩

/-- C20 at the started streamer without clients, for the key "k" and the identifier 1:
`NewClient` returns the connection 0, and after `removeClient` of it the by-user index
maps "k" to an empty set. -/
theorem C20_user_keys_only_grow_witness :
    (∃ s, run (NewStreamer NewDefaultOptions)
            [.Start, .NewClient "k".toList 1, .removeClient 0] = .ret s
        ∧ s.userMap = [("k".toList, [])] ∧ s.clientMap = [])
      ∧ (∃ s₁, NewClient (Start (NewStreamer NewDefaultOptions)) "k".toList 1
            = .ret (s₁, some (Start (NewStreamer NewDefaultOptions)).heap.length, none))
      ∧ (∀ (s₁ : Streamer) (p : Option Ptr) (e : Option GoError),
          NewClient (Start (NewStreamer NewDefaultOptions)) "k".toList 1 = .ret (s₁, p, e) →
          p = some (Start (NewStreamer NewDefaultOptions)).heap.length ∧ e = none
            ∧ ∃ s₂, removeClient s₁ (Start (NewStreamer NewDefaultOptions)).heap.length
                  = .ret (s₂, none)
              ∧ s₂.userMap.get "k".toList = some []
              ∧ "k".toList ∈ s₂.userMap.map Prod.fst) :=
  have h := (C20_user_keys_only_grow (Start (NewStreamer NewDefaultOptions)) rfl "k".toList 1
    rfl).1
  ⟨⟨_, rfl, rfl, rfl⟩, h.1 (by decide), h.2⟩

/-! ## The frame terminator -/

theorem encode_eq_frame (p : payload) : encode p = frame p.event p.data := by
  simp [encode, writePayload_body]

theorem scanLFLF_append (prev : Bool) (a b : Str) :
    scanLFLF prev (a ++ b) = (scanLFLF prev a || scanLFLF (afterLF prev a) b) := by
  induction a generalizing prev with
  | nil => simp [scanLFLF, afterLF]
  | cons c t ih => simp [scanLFLF, afterLF, ih, Bool.or_assoc]

theorem scanLFLF_of_infix (prev : Bool) (pre suf : Str) :
    scanLFLF prev (pre ++ ['\n', '\n'] ++ suf) = true := by
  rw [List.append_assoc, scanLFLF_append]
  simp [scanLFLF]

theorem scanLFLF_line (w : Str) (h : '\n' ∉ w) : scanLFLF false (w ++ ['\n']) = false := by
  induction w with
  | nil => simp [scanLFLF]
  | cons c t ih =>
    have hc : ¬ c = '\n' := fun hc => h (hc ▸ List.mem_cons_self _ _)
    have ht : '\n' ∉ t := fun ht => h (List.mem_cons_of_mem _ ht)
    have hb : (c == '\n') = false := by simpa using hc
    simp only [List.cons_append, scanLFLF, hb, Bool.false_and, Bool.false_or]
    exact ih ht

theorem scanLFLF_data (prev : Bool) (l : Str) (h : '\n' ∉ l) :
    scanLFLF prev ("data:".toList ++ l ++ "\n".toList) = false := by
  have hw : '\n' ∉ "ata:".toList ++ l := by
    intro hm
    rcases List.mem_append.mp hm with hm | hm
    · revert hm
      decide
    · exact h hm
  have := scanLFLF_line _ hw
  have hd : ('d' == '\n') = false := by decide
  show scanLFLF prev ('d' :: (("ata:".toList ++ l) ++ ['\n'])) = false
  simp only [scanLFLF, hd, Bool.and_false, Bool.false_or]
  exact this

theorem scanLFLF_lines (prev : Bool) (ls : List Str) (h : ∀ l ∈ ls, '\n' ∉ l) :
    scanLFLF prev (ls.map (fun l => "data:".toList ++ l ++ "\n".toList)).flatten = false := by
  induction ls generalizing prev with
  | nil => simp [scanLFLF]
  | cons l ls ih =>
    rw [List.map_cons, List.flatten_cons, scanLFLF_append,
      scanLFLF_data prev l (h l (List.mem_cons_self _ _)),
      ih _ (fun x hx => h x (List.mem_cons_of_mem _ hx))]
    rfl

theorem scanLFLF_event (e : Str) (h : '\n' ∉ e) :
    scanLFLF false (if e = [] then [] else "event:".toList ++ e ++ "\n".toList) = false := by
  by_cases he : e = []
  · simp [he, scanLFLF]
  · rw [if_neg he]
    have hw : '\n' ∉ "event:".toList ++ e := by
      intro hm
      rcases List.mem_append.mp hm with hm | hm
      · revert hm
        decide
      · exact h hm
    exact scanLFLF_line _ hw

/-- The frame without its last line feed has no two line feeds in a row. -/
theorem scanLFLF_frame_body (e : Str) (ls : List Str) (he : '\n' ∉ e)
    (hls : ∀ l ∈ ls, '\n' ∉ l) :
    scanLFLF false ((if e = [] then [] else "event:".toList ++ e ++ "\n".toList)
      ++ (ls.map (fun l => "data:".toList ++ l ++ "\n".toList)).flatten) = false := by
  rw [scanLFLF_append, scanLFLF_event e he, scanLFLF_lines _ ls hls]
  rfl

theorem frame_ends (e : Str) (ls : List Str) (hne : ls ≠ []) :
    ∃ pre, frame e ls = pre ++ ['\n', '\n'] := by
  rcases List.eq_nil_or_concat ls with rfl | ⟨ls', l, rfl⟩
  · exact absurd rfl hne
  · refine ⟨(if e = [] then [] else "event:".toList ++ e ++ "\n".toList)
      ++ (ls'.map (fun l => "data:".toList ++ l ++ "\n".toList)).flatten
      ++ ("data:".toList ++ l), ?_⟩
    unfold frame
    simp [List.map_append, List.flatten_append, List.append_assoc]

theorem frame_terminator_once (e : Str) (ls : List Str) (he : '\n' ∉ e)
    (hls : ∀ l ∈ ls, '\n' ∉ l) (pre suf : Str)
    (h : frame e ls = pre ++ ['\n', '\n'] ++ suf) : suf = [] := by
  rcases List.eq_nil_or_concat suf with hs | ⟨suf', x, hs⟩
  · exact hs
  · exfalso
    subst hs
    have hbody := scanLFLF_frame_body e ls he hls
    unfold frame at h
    have h' : ((if e = [] then [] else "event:".toList ++ e ++ "\n".toList)
          ++ (ls.map (fun l => "data:".toList ++ l ++ "\n".toList)).flatten) ++ "\n".toList
        = (pre ++ ['\n', '\n'] ++ suf') ++ [x] := by
      rw [h]
      simp [List.append_assoc]
    have hx := List.append_inj_left' h' rfl
    rw [hx, scanLFLF_of_infix] at hbody
    cases hbody

/-- C18: for every event name without a line feed and every data string, the frame
written for `makePayload(event, data)` ends with "\n\n", and wherever "\n\n" occurs in
the frame nothing follows it: the frame terminator occurs once, at the end. -/
theorem C18_frame_terminator (event data : Str) (he : '\n' ∉ event) :
    (∃ pre, encode (makePayload event data) = pre ++ "\n\n".toList)
      ∧ ∀ pre suf, encode (makePayload event data) = pre ++ "\n\n".toList ++ suf → suf = [] := by
  have hd : (makePayload event data).data = genSplit.loop LF 0 (data.count '\n') data :=
    SplitN_LF data
  have hne : (makePayload event data).data ≠ [] := by
    rw [hd]
    exact genSplit_loop_ne_nil _ _ _ _
  have hfree : ∀ l ∈ (makePayload event data).data, '\n' ∉ l := by
    rw [hd]
    exact genSplit_loop_free '\n' _ data (Nat.le_refl _)
  rw [encode_eq_frame]
  exact ⟨frame_ends _ _ hne, fun pre suf h => frame_terminator_once _ _ he hfree pre suf h⟩

/-- C18 for the event "e" and the data "a\n\nb", whose middle line is empty: the frame
is "event:e\ndata:a\ndata:\ndata:b\n\n". -/
theorem C18_frame_terminator_witness :
    encode (makePayload "e".toList "a\n\nb".toList) = "event:e\ndata:a\ndata:\ndata:b\n\n".toList
      ∧ (∃ pre, encode (makePayload "e".toList "a\n\nb".toList) = pre ++ "\n\n".toList)
      ∧ ∀ pre suf, encode (makePayload "e".toList "a\n\nb".toList) = pre ++ "\n\n".toList ++ suf →
          suf = [] :=
  ⟨by decide, C18_frame_terminator "e".toList "a\n\nb".toList (by decide)⟩

/-! ## `Multicast` to every user key -/

/-- Sending to distinct clients with open outboxes, one of which is full, waits. -/
theorem sendEach_blocked (m : payload) (ps : List Ptr) (heap : List Client) (hn : ps.Nodup)
    (hok : ∀ p ∈ ps, ∃ c, deref heap p = some c ∧ c.send.closed = false)
    (hfull : ∃ p ∈ ps, ∃ c, deref heap p = some c ∧ ¬ hasFreeSpace c) :
    sendEach heap (ps.map some) m = .blocked := by
  induction ps generalizing heap with
  | nil =>
    obtain ⟨p, hp, _⟩ := hfull
    simp at hp
  | cons p ps ih =>
    obtain ⟨c, hc, ho⟩ := hok p (List.mem_cons_self _ _)
    have hp : p ∉ ps := (List.nodup_cons.mp hn).1
    simp only [List.map_cons, sendEach]
    by_cases hf : hasFreeSpace c
    · rw [chanSend_ok m hc ho hf]
      dsimp only
      apply ih _ (List.nodup_cons.mp hn).2
      · intro q hq
        have hne : p ≠ q := fun hpq => hp (hpq ▸ hq)
        rw [deref_set_ne _ _ hne]
        exact hok q (List.mem_cons_of_mem _ hq)
      · obtain ⟨q, hq, d, hd, hnf⟩ := hfull
        rcases List.mem_cons.mp hq with rfl | hq'
        · rw [hc] at hd
          cases hd
          exact absurd hf hnf
        · have hne : p ≠ q := fun hpq => hp (hpq ▸ hq')
          exact ⟨q, hq', d, by rw [deref_set_ne _ _ hne]; exact hd, hnf⟩
    · have hb : chanSend heap (some p) m = .blocked := by
        unfold hasFreeSpace at hf
        unfold chanSend
        dsimp only
        rw [hc]
        dsimp only
        rw [if_neg (by simp [ho]), if_neg hf]
      rw [hb]

/-- The outcome of sending to distinct clients with open outboxes does not depend on
the order of the targets. -/
theorem sendEach_order (m : payload) (ps qs : List Ptr) (heap : List Client) (hp : ps.Nodup)
    (hq : qs.Nodup) (hsame : ∀ p, p ∈ ps ↔ p ∈ qs)
    (hok : ∀ p ∈ ps, ∃ c, deref heap p = some c ∧ c.send.closed = false) :
    sendEach heap (ps.map some) m = sendEach heap (qs.map some) m := by
  have hok' : ∀ p ∈ qs, ∃ c, deref heap p = some c ∧ c.send.closed = false :=
    fun p h => hok p ((hsame p).mpr h)
  by_cases hfree : ∀ p ∈ ps, ∀ c, deref heap p = some c → hasFreeSpace c
  · have h1 : ∀ p ∈ ps, ∃ c, deref heap p = some c ∧ c.send.closed = false ∧ hasFreeSpace c := by
      intro p h
      obtain ⟨c, hc, ho⟩ := hok p h
      exact ⟨c, hc, ho, hfree p h c hc⟩
    have h2 : ∀ p ∈ qs, ∃ c, deref heap p = some c ∧ c.send.closed = false ∧ hasFreeSpace c :=
      fun p h => h1 p ((hsame p).mpr h)
    obtain ⟨a, ha, hla, halla⟩ := sendEach_ok m ps heap hp h1
    obtain ⟨b, hb, hlb, hallb⟩ := sendEach_ok m qs heap hq h2
    rw [ha, hb]
    congr 1
    apply List.ext_getElem?
    intro n
    cases hn : deref heap n with
    | none =>
      have hlen : heap.length ≤ n := List.getElem?_eq_none_iff.mp hn
      rw [List.getElem?_eq_none (by rw [hla]; exact hlen),
        List.getElem?_eq_none (by rw [hlb]; exact hlen)]
    | some c =>
      have e1 := halla n c hn
      have e2 := hallb n c hn
      simp only [deref] at e1 e2
      rw [e1, e2]
      by_cases hm : n ∈ ps
      · rw [if_pos hm, if_pos ((hsame n).mp hm)]
      · rw [if_neg hm, if_neg (fun h => hm ((hsame n).mpr h))]
  · have hfull : ∃ p ∈ ps, ∃ c, deref heap p = some c ∧ ¬ hasFreeSpace c := by
      by_contra hcon
      apply hfree
      intro p hpm c hc
      by_contra hnf
      exact hcon ⟨p, hpm, c, hc, hnf⟩
    have hfull' : ∃ p ∈ qs, ∃ c, deref heap p = some c ∧ ¬ hasFreeSpace c := by
      obtain ⟨p, hpm, rest⟩ := hfull
      exact ⟨p, (hsame p).mp hpm, rest⟩
    rw [sendEach_blocked m ps heap hp hok hfull, sendEach_blocked m qs heap hq hok' hfull']

/-- When the loop over the targets returns, the store it returns is the store at the
moment it stops. -/
theorem sendProgress_of_ret (m : payload) (ts : List (Option Ptr)) (heap heap' : List Client)
    (h : sendEach heap ts m = .ret heap') : sendProgress heap ts m = heap' := by
  induction ts generalizing heap with
  | nil =>
    simp only [sendEach, Outcome.ret.injEq] at h
    simpa [sendProgress] using h
  | cons t ts ih =>
    simp only [sendEach] at h
    simp only [sendProgress]
    cases hc : chanSend heap t m with
    | ret heap₁ =>
      rw [hc] at h
      exact ih heap₁ h
    | panic e =>
      rw [hc] at h
      cases h
    | blocked =>
      rw [hc] at h
      cases h
    | spins =>
      rw [hc] at h
      cases h

/-- C19, as amended: on a running streamer, for every list of user keys that contains
every user key of the by-user index, in any order and with any repetitions, the targets
of `Multicast` are the targets of `Broadcast` up to their order, each once; and when the
outbox of every registered connection has free space the two calls return the same
result, no error, and the same state, in which every registered connection has the one
message appended to its outbox and every other client is as before. -/
theorem C19_multicast_all_keys_is_broadcast (s : Streamer) (hr : Reachable s)
    (hrun : s.stopped = false) (users : List Str)
    (hall : ∀ k ∈ s.userMap.map Prod.fst, k ∈ users) (event data : Str) :
    (multicastTargets s users).Perm (broadcastTargets s)
      ∧ (multicastTargets s users).Nodup
      ∧ ((∀ p c, deref s.heap p = some c → registered s p = true → hasFreeSpace c) →
          ∃ heap', Broadcast s event data = .ret ({ s with heap := heap' }, none)
            ∧ Multicast s event data users = .ret ({ s with heap := heap' }, none)
            ∧ sendProgress s.heap (broadcastTargets s) (makePayload event data) = heap'
            ∧ sendProgress s.heap (multicastTargets s users) (makePayload event data) = heap'
            ∧ heap'.length = s.heap.length
            ∧ ∀ p c, deref s.heap p = some c →
                deref heap' p
                  = some (if registered s p = true then enqueue c (makePayload event data)
                      else c)) := by
  have hinv := hr.inv
  have hn1 := hinv.multicast_nodup users
  have hn2 := hinv.userClients_nodup
  have hsame : ∀ p, p ∈ (distinct users).flatMap (clientsOf s.userMap)
      ↔ p ∈ userClients s.userMap := by
    intro p
    constructor
    · intro h
      obtain ⟨k, _, hk⟩ := List.mem_flatMap.mp h
      exact (hinv.mem_userClients_iff p).mpr ((hinv.mem_clientsOf_iff k p).mp hk).1
    · intro h
      obtain ⟨e, he, f, hf, rfl⟩ := mem_userClients.mp h
      obtain ⟨c, hc, hk, _⟩ := hinv.filed e he f hf
      have hreg : registered s f.2 = true := by
        rw [hinv.registered_eq]
        exact (hinv.mem_userClients_iff _).mp h
      have hkey : c.userKey ∈ users :=
        hall _ (hk ▸ List.mem_map.mpr ⟨e, he, rfl⟩)
      exact (hinv.mem_multicast users hc).mpr ⟨hreg, hkey⟩
  have hok : ∀ p ∈ (distinct users).flatMap (clientsOf s.userMap),
      ∃ c, deref s.heap p = some c ∧ c.send.closed = false := by
    intro p hp
    obtain ⟨e, he, f, hf, rfl⟩ := mem_userClients.mp ((hsame p).mp hp)
    obtain ⟨c, hc, _, _, ho⟩ := hinv.filed e he f hf
    exact ⟨c, hc, ho⟩
  refine ⟨?_, ?_, ?_⟩
  · rw [multicastTargets_eq, broadcastTargets_eq]
    exact ((List.perm_ext_iff_of_nodup hn1 hn2).mpr hsame).map _
  · rw [multicastTargets_eq]
    exact hn1.map (fun _ _ h => Option.some.inj h)
  · intro hfree
    have hokf : ∀ p ∈ userClients s.userMap,
        ∃ c, deref s.heap p = some c ∧ c.send.closed = false ∧ hasFreeSpace c := by
      intro p hp
      obtain ⟨c, hc, ho⟩ := hok p ((hsame p).mpr hp)
      have hreg : registered s p = true := by
        rw [hinv.registered_eq]
        exact (hinv.mem_userClients_iff p).mp hp
      exact ⟨c, hc, ho, hfree p c hc hreg⟩
    obtain ⟨heap', hs, hl, hdel⟩ := sendEach_ok (makePayload event data) _ s.heap hn2 hokf
    have hm : sendEach s.heap (((distinct users).flatMap (clientsOf s.userMap)).map some)
        (makePayload event data) = .ret heap' := by
      rw [sendEach_order (makePayload event data) _ _ s.heap hn1 hn2 hsame hok]
      exact hs
    refine ⟨heap', ?_, ?_, ?_, ?_, hl, ?_⟩
    · unfold Broadcast
      rw [if_neg (by simp [hrun]), broadcastTargets_eq]
      exact sendAndReturn_ok hs
    · unfold Multicast
      rw [if_neg (by simp [hrun]), multicastTargets_eq]
      exact sendAndReturn_ok hm
    · rw [broadcastTargets_eq]
      exact sendProgress_of_ret _ _ _ _ hs
    · rw [multicastTargets_eq]
      exact sendProgress_of_ret _ _ _ _ hm
    · intro p c hc
      rw [hdel p c hc]
      have hiff : p ∈ userClients s.userMap ↔ registered s p = true := by
        rw [hinv.registered_eq]
        exact hinv.mem_userClients_iff p
      by_cases hp : p ∈ userClients s.userMap
      · rw [if_pos hp, if_pos (hiff.mp hp)]
      · rw [if_neg hp, if_neg (fun h => hp (hiff.mpr h))]

/-- C19, as amended, at the streamer with two clients under the key "k", whose outboxes
are empty, for the list "j", "k", "k". -/
theorem C19_multicast_all_keys_is_broadcast_witness :
    (multicastTargets twoClients ["j".toList, "k".toList, "k".toList]).Perm
        (broadcastTargets twoClients)
      ∧ (multicastTargets twoClients ["j".toList, "k".toList, "k".toList]).Nodup
      ∧ ∃ heap', Broadcast twoClients "e".toList "d".toList
            = .ret ({ twoClients with heap := heap' }, none)
          ∧ Multicast twoClients "e".toList "d".toList ["j".toList, "k".toList, "k".toList]
            = .ret ({ twoClients with heap := heap' }, none)
          ∧ sendProgress twoClients.heap (broadcastTargets twoClients)
              (makePayload "e".toList "d".toList) = heap'
          ∧ sendProgress twoClients.heap
              (multicastTargets twoClients ["j".toList, "k".toList, "k".toList])
              (makePayload "e".toList "d".toList) = heap'
          ∧ heap'.length = twoClients.heap.length
          ∧ ∀ p c, deref twoClients.heap p = some c →
              deref heap' p
                = some (if registered twoClients p = true
                    then enqueue c (makePayload "e".toList "d".toList) else c) :=
  have h := C19_multicast_all_keys_is_broadcast twoClients twoClients_reachable rfl
    ["j".toList, "k".toList, "k".toList] (by decide) "e".toList "d".toList
  ⟨h.1, h.2.1, h.2.2 (by
    intro p c hc _
    rcases p with _ | _ | p
    · simp only [twoClients, deref, List.getElem?_cons_zero, Option.some.injEq] at hc
      subst hc
      decide
    · simp only [twoClients, deref, List.getElem?_cons_succ, List.getElem?_cons_zero,
        Option.some.injEq] at hc
      subst hc
      decide
    · simp [twoClients, deref] at hc)⟩

/-- C19 as stated fails where an outbox is full.  The streamer with `SendChanBufferSize`
1 reaches, by `Start`, two `NewClient` calls and a `Unicast` to the first connection, a
running state in which the first outbox is full and the second is empty.  For the list
"b", "a", which has every user key of the by-user index, `Multicast` has the targets of
`Broadcast` in the other order, and both calls wait; when `Multicast` waits it has put
the message in the outbox of the second connection, and when `Broadcast` waits it has
put it in no outbox. -/
theorem C19_counterexample_full_outbox :
    run (NewStreamer { NoXAccelBuffering := true, SendChanBufferSize := 1,
                       UserAuthenticator := none })
        [.Start, .NewClient "a".toList 1, .NewClient "b".toList 2,
         .Unicast "e".toList "d".toList 1] = .ret fullAndEmpty
      ∧ fullAndEmpty.stopped = false
      ∧ (∀ k ∈ fullAndEmpty.userMap.map Prod.fst, k ∈ ["b".toList, "a".toList])
      ∧ multicastTargets fullAndEmpty ["b".toList, "a".toList] = [some 1, some 0]
      ∧ broadcastTargets fullAndEmpty = [some 0, some 1]
      ∧ Multicast fullAndEmpty "x".toList "y".toList ["b".toList, "a".toList] = .blocked
      ∧ Broadcast fullAndEmpty "x".toList "y".toList = .blocked
      ∧ (sendProgress fullAndEmpty.heap (multicastTargets fullAndEmpty ["b".toList, "a".toList])
            (makePayload "x".toList "y".toList)).map (fun c => c.send.buf)
          = [[{ event := "e".toList, data := ["d".toList] }],
             [{ event := "x".toList, data := ["y".toList] }]]
      ∧ (sendProgress fullAndEmpty.heap (broadcastTargets fullAndEmpty)
            (makePayload "x".toList "y".toList)).map (fun c => c.send.buf)
          = [[{ event := "e".toList, data := ["d".toList] }], []] :=
  ⟨rfl, rfl, by decide, rfl, rfl, rfl, rfl, rfl, rfl⟩

/-! ## A fan-out call that overlaps with `Stop` -/

/-- C15 at the failing input: on the streamer with one registered client, a `Broadcast`
passes its running check and releases the read lock with the counter still at zero;
`Stop` then sets the flag, finds the counter at zero, closes the outbox and returns;
the `Broadcast` goes on, raises the counter and sends on the closed channel.  The same
schedule ends the same way for `Multicast` and `Unicast`.  Run alone, the two
goroutines do what `Broadcast` and `Stop` do. -/
theorem C15_fanout_not_registered_before_check :
    (∃ c₁ c₂,
        Conc.run broadcastTargets (makePayload "e".toList "d".toList)
            { s := oneClient, fanout := .start, stop := .start } [.fanout] = .ret c₁
        ∧ c₁.fanout = .collected [some 0] ∧ c₁.s.stopped = false ∧ c₁.s.wg = 0
        ∧ Conc.run broadcastTargets (makePayload "e".toList "d".toList) c₁
            [.stop, .stop, .stop, .stop, .stop] = .ret c₂
        ∧ c₂.stop = .returned ∧ c₂.fanout = .collected [some 0]
        ∧ (deref c₂.s.heap 0).map (fun c => c.send.closed) = some true
        ∧ Conc.run broadcastTargets (makePayload "e".toList "d".toList) c₂ [.fanout, .fanout]
            = .panic .sendOnClosedChannel)
      ∧ Conc.run broadcastTargets (makePayload "e".toList "d".toList)
          { s := oneClient, fanout := .start, stop := .start }
          [.fanout, .stop, .stop, .stop, .stop, .stop, .fanout, .fanout]
          = .panic .sendOnClosedChannel
      ∧ Conc.run (fun s => multicastTargets s ["k".toList]) (makePayload "e".toList "d".toList)
          { s := oneClient, fanout := .start, stop := .start }
          [.fanout, .stop, .stop, .stop, .stop, .stop, .fanout, .fanout]
          = .panic .sendOnClosedChannel
      ∧ Conc.run (fun s => unicastTargets s 1) (makePayload "e".toList "d".toList)
          { s := oneClient, fanout := .start, stop := .start }
          [.fanout, .stop, .stop, .stop, .stop, .stop, .fanout, .fanout]
          = .panic .sendOnClosedChannel
      ∧ (∃ s', Broadcast oneClient "e".toList "d".toList = .ret (s', none)
          ∧ Conc.run broadcastTargets (makePayload "e".toList "d".toList)
              { s := oneClient, fanout := .start, stop := .start }
              [.fanout, .fanout, .fanout, .fanout]
            = .ret { s := s', fanout := .returned none, stop := .start })
      ∧ (∃ s', Stop oneClient = .ret s'
          ∧ Conc.run broadcastTargets (makePayload "e".toList "d".toList)
              { s := oneClient, fanout := .start, stop := .start }
              [.stop, .stop, .stop, .stop, .stop]
            = .ret { s := s', fanout := .start, stop := .returned }) :=
  ⟨⟨_, _, rfl, rfl, rfl, rfl, rfl, rfl, rfl, rfl, rfl⟩, rfl, rfl, rfl, ⟨_, rfl, rfl⟩,
    ⟨_, rfl, rfl⟩⟩

end SSE
